import Mathlib

/-!
Shallow embedding of the Hybrid Retrieval Engine of the ai-advisory-board
backend (src/backend/hybrid_retrieval.py and src/backend/rag.py).

Modelling conventions:
* Python floats are modelled as exact rationals (`ℚ`).  Arithmetic on scores
  is written with `mkRat`-based helpers (`qAdd`, `rrfTerm`) so that concrete
  runs reduce inside the kernel; bridge lemmas (`qAdd_eq`, `rrfTerm_eq`)
  identify them with the ordinary `+` and `/` of `ℚ`.
* Python dicts keyed by strings become association lists, read through
  `dictGet` (first binding wins; the stores involved never hold duplicate
  keys, which appears as a `Nodup` hypothesis where it matters).
* The external collaborators (the BM25 library `rank_bm25` and the Chroma
  vector store) are modelled by oracle inputs: `bm25Scores` is the score
  vector `BM25Okapi.get_scores` returned (aligned with `doc_ids`), and
  `denseOracle` is the embedding-similarity ranking of the whole collection;
  the store's documented `where={"conversation_id": ...}` filtering and
  `n_results` truncation are applied to it in `denseQuery`, mirroring the
  contract `collection.query` provides to `HybridRetriever.retrieve`.
* Python's `set` iteration order over the fused candidate ids is not
  specified; it enters the model as the explicit argument `enumOrder`,
  constrained by `ValidEnum` to enumerate exactly the candidate set.
* Exceptions are modelled with `Except`: `CouncilRAG.retrieveE` is the body
  of the `try:` block (the `fail` argument injects a store/query failure),
  and `CouncilRAG.retrieve` is the catching boundary.
* `datetime.utcnow()` is modelled as an explicit `timestamp` argument to the
  write path.
-/

/-- Metadata attached to a stored document.  Python metadata is an open dict;
missing keys are `none`. -/
structure Metadata where
  conversation_id : Option String := none
  turn_index : Option Int := none
  stage : Option String := none
  model : Option String := none
  topics : Option String := none
  avg_rank : Option ℚ := none
  consensus_score : Option ℚ := none
  timestamp : Option String := none
deriving DecidableEq, Repr

/-- One persisted document of the Chroma collection: id, text body, metadata. -/
structure Doc where
  id : String
  text : String
  meta : Metadata
deriving DecidableEq, Repr

/-- The external document/vector store: the collection's entries in insertion
order.  Chroma keys entries by id, so a well-formed store has `Nodup` ids. -/
abbrev Store := List Doc

/-- Association-list read, mirroring Python `dict.get`: first binding wins. -/
def dictGet (key : String) : List (String × β) → Option β
  | [] => none
  | (k, v) :: rest => if k = key then some v else dictGet key rest

/-- Keys of an association list. -/
def keysOf (l : List (String × β)) : List String := l.map Prod.fst

/-- First stored document with the given id (`collection.get(ids=[...])`). -/
def findDoc (docId : String) : Store → Option Doc
  | [] => none
  | d :: rest => if d.id = docId then some d else findDoc docId rest

/-- Exact rational addition, written so that it reduces in the kernel.
`qAdd_eq` identifies it with `+` on `ℚ`. -/
def qAdd (a b : ℚ) : ℚ :=
  mkRat (a.num * (b.den : ℤ) + b.num * (a.den : ℤ)) (a.den * b.den)

/-- One reciprocal-rank-fusion term `w / (60.0 + rank)` (`k_const = 60.0` in
`HybridRetriever.retrieve`), written so that it reduces in the kernel.
`rrfTerm_eq` identifies it with the ordinary quotient. -/
def rrfTerm (w : ℚ) (rank : ℕ) : ℚ :=
  mkRat w.num (w.den * (60 + rank))

/-- Python `text.split()`: split on whitespace runs, no empty words.
Implemented by structural recursion on the character list so that concrete
word counts reduce in the kernel. -/
def splitWords : List Char → List Char → List String
  | [], [] => []
  | [], acc => [String.mk acc.reverse]
  | c :: rest, acc =>
    if c.isWhitespace then
      match acc with
      | [] => splitWords rest []
      | _ => String.mk acc.reverse :: splitWords rest []
    else splitWords rest (c :: acc)

/-- Words of a Python string under `str.split()`. -/
def pyWords (s : String) : List String := splitWords s.data []

/-- Python `doc.lower().split()`, the tokenizer of `_rebuild_bm25_index`. -/
def tokenize (s : String) : List String :=
  pyWords (String.mk (s.data.map Char.toLower))

/-- The BM25 side-index rebuilt by `HybridRetriever._rebuild_bm25_index`:
`bm25_index` holds the tokenized corpus handed to `BM25Okapi` (or `none` in
the explicit empty state), plus the id/document/metadata mappings. -/
structure Snapshot where
  bm25_index : Option (List (List String))
  doc_ids : List String
  id_to_doc : List (String × String)
  id_to_metadata : List (String × Metadata)
deriving DecidableEq, Repr

/-- `HybridRetriever._rebuild_bm25_index`: full-collection scan; an empty
collection yields the explicit empty state instead of an error. -/
def rebuildSnapshot (store : Store) : Snapshot :=
  if store.isEmpty then
    { bm25_index := none, doc_ids := [], id_to_doc := [], id_to_metadata := [] }
  else
    { bm25_index := some (store.map fun d => tokenize d.text)
      doc_ids := store.map Doc.id
      id_to_doc := store.map fun d => (d.id, d.text)
      id_to_metadata := store.map fun d => (d.id, d.meta) }

/-- Indices of the score vector sorted by descending score
(`np.argsort(bm25_scores)[::-1]`; numpy's sort order among equal scores is
unspecified, this is one refinement of it). -/
def argsortDesc (scores : List ℚ) : List ℕ :=
  (List.range scores.length).insertionSort fun i j => scores.getD j 0 ≤ scores.getD i 0

/-- The lexical candidate loop of `HybridRetriever.retrieve`: walk the
truncated argsort order with `enumerate`-style ranks (starting at `rank`,
stored as `rank + 1`), drop non-positive scores and candidates whose stored
metadata is not the requested conversation. -/
def bm25Fold (snap : Snapshot) (scores : List ℚ) (conversation_id : String) :
    List ℕ → ℕ → List (String × ℕ)
  | [], _ => []
  | idx :: rest, rank =>
    let tail := bm25Fold snap scores conversation_id rest (rank + 1)
    match snap.doc_ids.get? idx with
    | none => tail
    | some docId =>
      if scores.getD idx 0 ≤ 0 then tail
      else
        match dictGet docId snap.id_to_metadata with
        | none => tail
        | some meta =>
          if meta.conversation_id = some conversation_id then (docId, rank + 1) :: tail
          else tail

/-- The `bm25_results` dict of `HybridRetriever.retrieve`: doc id ↦ 1-based
rank among the `top_k * 2` best global BM25 candidates. -/
def bm25Results (snap : Snapshot) (scores : List ℚ) (conversation_id : String)
    (top_k : ℕ) : List (String × ℕ) :=
  bm25Fold snap scores conversation_id ((argsortDesc scores).take (top_k * 2)) 0

/-- Whether the store holds the id with metadata matching the conversation:
the `where={"conversation_id": conversation_id}` filter Chroma applies. -/
def matchesConv (store : Store) (docId conversation_id : String) : Bool :=
  match findDoc docId store with
  | some d => d.meta.conversation_id = some conversation_id
  | none => false

/-- `collection.query(..., n_results, where={"conversation_id": ...})`:
the dense oracle's ranking filtered to the conversation, truncated. -/
def denseQuery (store : Store) (denseOracle : List (String × ℚ))
    (conversation_id : String) (n_results : ℕ) : List (String × ℚ) :=
  ((denseOracle.filter fun p => matchesConv store p.1 conversation_id).take n_results)

/-- The `dense_result_dict` loop: id ↦ (1-based rank, similarity `1 - distance`). -/
def denseFold : List (String × ℚ) → ℕ → List (String × ℕ × ℚ)
  | [], _ => []
  | (docId, distance) :: rest, rank => (docId, rank + 1, 1 - distance) :: denseFold rest (rank + 1)

/-- The dense results of `HybridRetriever.retrieve`. -/
def denseResults (store : Store) (denseOracle : List (String × ℚ))
    (conversation_id : String) (top_k : ℕ) : List (String × ℕ × ℚ) :=
  denseFold (denseQuery store denseOracle conversation_id (top_k * 2)) 0

/-- The reciprocal-rank-fusion score of one candidate id, as accumulated in
`combined_scores`: each source contributes `weight / (60.0 + rank)` when the
id is present, and nothing otherwise. -/
def fusedScore (bm : List (String × ℕ)) (dn : List (String × ℕ × ℚ))
    (bm25_weight dense_weight : ℚ) (docId : String) : ℚ :=
  qAdd
    (match dictGet docId bm with
     | some rank => rrfTerm bm25_weight rank
     | none => mkRat 0 1)
    (match dictGet docId dn with
     | some p => rrfTerm dense_weight p.1
     | none => mkRat 0 1)

/-- A fused retrieval result (`{"id", "score", "metadata", "text"}`). -/
structure RetrievalResult where
  id : String
  score : ℚ
  metadata : Metadata
  text : String
deriving DecidableEq, Repr

/-- The candidate-set enumeration `enumOrder` faithfully enumerates
`set(bm25_results) | set(dense_result_dict)`; Python fixes no particular
order for it, so it is a parameter of the model. -/
def ValidEnum (bm : List (String × ℕ)) (dn : List (String × ℕ × ℚ))
    (enumOrder : List String) : Prop :=
  enumOrder.Nodup ∧
    (∀ docId ∈ enumOrder, docId ∈ keysOf bm ∨ docId ∈ keysOf dn) ∧
    (∀ docId ∈ keysOf bm, docId ∈ enumOrder) ∧
    (∀ docId ∈ keysOf dn, docId ∈ enumOrder)

instance (bm : List (String × ℕ)) (dn : List (String × ℕ × ℚ)) (enumOrder : List String) :
    Decidable (ValidEnum bm dn enumOrder) := by
  unfold ValidEnum; infer_instance

namespace HybridRetriever

/-- `HybridRetriever.retrieve`.  The query string enters only through the two
oracles (`bm25Scores` is what `BM25Okapi.get_scores(query_tokens)` returned,
`denseOracle` what the embedding ranking of the query is), so it is not a
separate argument.  Sorting is by descending fused score; Python's `sorted`
is stable, so ties keep `enumOrder`'s order, which `insertionSort` mirrors. -/
def retrieve (store : Store) (bm25Scores : List ℚ) (denseOracle : List (String × ℚ))
    (enumOrder : List String) (conversation_id : String) (top_k : ℕ)
    (bm25_weight dense_weight : ℚ) : List RetrievalResult :=
  let snap := rebuildSnapshot store
  if snap.doc_ids.isEmpty then []
  else
    match snap.bm25_index with
    | none => []
    | some _ =>
      let bm := bm25Results snap bm25Scores conversation_id top_k
      let dn := denseResults store denseOracle conversation_id top_k
      let score := fusedScore bm dn bm25_weight dense_weight
      if enumOrder.isEmpty then []
      else
        let sorted_ids :=
          (enumOrder.insertionSort fun a b => score b ≤ score a).take top_k
        sorted_ids.map fun docId =>
          match findDoc docId store with
          | some d =>
            { id := docId, score := score docId, metadata := d.meta, text := d.text }
          | none =>
            { id := docId, score := score docId, metadata := {}, text := "" }

end HybridRetriever

/-- `RAG_MAX_TOKENS`: the context token budget. -/
def RAG_MAX_TOKENS : ℕ := 3000

/-- The crude token estimate `int(len(text.split()) * 1.3)` of
`CouncilRAG.retrieve` (the float multiply-then-truncate agrees with the exact
`⌊words * 13 / 10⌋` on every word count). -/
def estTokens (text : String) : ℕ :=
  (pyWords text).length * 13 / 10

/-- A chunk surviving the relevance threshold
(`{"id", "similarity", "metadata", "text"}`). -/
structure Chunk where
  id : String
  similarity : ℚ
  metadata : Metadata
  text : String
deriving DecidableEq, Repr

namespace CouncilRAG

/-- The threshold filter of `CouncilRAG.retrieve`: drop results whose fused
score is below `threshold = 0.01`. -/
def thresholdFilter (results : List RetrievalResult) : List Chunk :=
  results.filterMap fun r =>
    if r.score < mkRat 1 100 then none
    else some { id := r.id, similarity := r.score, metadata := r.metadata, text := r.text }

/-- `CouncilRAG._format_chunk`: reads `turn_index`, `stage` and `model` with
`meta['...']`, which raises `KeyError` on a missing field. -/
def formatChunk (chunk : Chunk) : Except String String :=
  match chunk.metadata.turn_index, chunk.metadata.stage, chunk.metadata.model with
  | some t, some s, some m =>
    Except.ok ("[Turn " ++ toString t ++ " | Stage " ++ s ++ " | Model: " ++ m ++ "]\n"
      ++ chunk.text)
  | _, _, _ => Except.error "KeyError"

/-- The budget-packing loop of `CouncilRAG.retrieve`: walk the filtered chunks
in fused order, break before the first chunk whose estimate would push
`used_tokens` over `RAG_MAX_TOKENS`, and format each appended chunk (a
formatting failure escapes to the `except` boundary). -/
def packChunks : List Chunk → ℕ → Except String (List String)
  | [], _ => Except.ok []
  | chunk :: rest, used_tokens =>
    let est := estTokens chunk.text
    if used_tokens + est > RAG_MAX_TOKENS then Except.ok []
    else
      match formatChunk chunk with
      | Except.error e => Except.error e
      | Except.ok piece =>
        match packChunks rest (used_tokens + est) with
        | Except.error e => Except.error e
        | Except.ok pieces => Except.ok (piece :: pieces)

/-- The body of the `try:` block of `CouncilRAG.retrieve`; `fail` injects a
failure of any lower step (store query error, etc.). -/
def retrieveE (fail : Option String) (store : Store) (bm25Scores : List ℚ)
    (denseOracle : List (String × ℚ)) (enumOrder : List String)
    (conversation_id : String) : Except String String :=
  match fail with
  | some e => Except.error e
  | none =>
    let results := HybridRetriever.retrieve store bm25Scores denseOracle enumOrder
      conversation_id 10 (mkRat 1 2) (mkRat 1 2)
    let filtered_chunks := thresholdFilter results
    match packChunks filtered_chunks 0 with
    | Except.error e => Except.error e
    | Except.ok formatted_parts => Except.ok (String.intercalate "\n\n" formatted_parts)

/-- `CouncilRAG.retrieve`: empty context when disabled, and the `except`
boundary downgrades every failure to the empty context string. -/
def retrieve (enabled : Bool) (fail : Option String) (store : Store)
    (bm25Scores : List ℚ) (denseOracle : List (String × ℚ)) (enumOrder : List String)
    (conversation_id : String) : String :=
  if enabled = false then ""
  else
    match retrieveE fail store bm25Scores denseOracle enumOrder conversation_id with
    | Except.error _ => ""
    | Except.ok context => context

end CouncilRAG

/-- One stage-1 result (`{'model': ..., 'response': ...}`). -/
structure Stage1Result where
  model : String
  response : String
deriving DecidableEq, Repr

/-- The stage-3 synthesis dict, read with `.get('model', 'unknown')` and
`.get('response', '')`. -/
structure Stage3Result where
  model : Option String := none
  response : Option String := none
deriving DecidableEq, Repr

/-- Per-model quality metrics dict, read with `.get("avg_rank", 999.0)` and
`.get("consensus_score", 0.0)`. -/
structure QualityMetric where
  avg_rank : Option ℚ := none
  consensus_score : Option ℚ := none
deriving DecidableEq, Repr

/-- `json.dumps(topics or [])` (the engine never parses it back, only the
serialized string matters). -/
def jsonDumps (topics : List String) : String :=
  "[" ++ String.intercalate ", " (topics.map fun t => "\x22" ++ t ++ "\x22") ++ "]"

namespace CouncilRAG

/-- The opinion-loop documents of `CouncilRAG.index_session`: ids
`conversation_id:turn:turn_index:opinion:idx:model`, enumerated bodies and
metadata with quality-metric default sentinels. -/
def opinionDocs (conversation_id : String) (turn_index : Int) (user_question : String)
    (topicsStr timestamp : String) (quality_metrics : List (String × QualityMetric)) :
    List Stage1Result → ℕ → List Doc
  | [], _ => []
  | res :: rest, idx =>
    let quality := (dictGet res.model quality_metrics).getD {}
    { id := conversation_id ++ ":turn:" ++ toString turn_index ++ ":opinion:"
        ++ toString idx ++ ":" ++ res.model
      text := "Q: " ++ user_question ++ "\n\nA: " ++ res.response
      meta :=
        { conversation_id := some conversation_id
          turn_index := some turn_index
          stage := some "opinion"
          model := some res.model
          topics := some topicsStr
          avg_rank := some (quality.avg_rank.getD 999)
          consensus_score := some (quality.consensus_score.getD 0)
          timestamp := some timestamp } } ::
      opinionDocs conversation_id turn_index user_question topicsStr timestamp
        quality_metrics rest (idx + 1)

/-- The document batch one `index_session` call upserts (opinions, then the
synthesis document unless the synthesis text is empty). -/
def sessionDocs (conversation_id : String) (turn_index : Int) (user_question : String)
    (stage1_results : List Stage1Result) (stage3_result : Stage3Result)
    (topics : List String) (quality_metrics : List (String × QualityMetric))
    (timestamp : String) : List Doc :=
  let topicsStr := jsonDumps topics
  let stage3_model := stage3_result.model.getD "unknown"
  let final_text := stage3_result.response.getD ""
  let stage3_quality := (dictGet stage3_model quality_metrics).getD {}
  opinionDocs conversation_id turn_index user_question topicsStr timestamp
      quality_metrics stage1_results 0 ++
    (if final_text = "" then []
     else
       [{ id := conversation_id ++ ":turn:" ++ toString turn_index ++ ":synthesis:"
            ++ stage3_model
          text := "Q: " ++ user_question ++ "\n\nA: " ++ final_text
          meta :=
            { conversation_id := some conversation_id
              turn_index := some turn_index
              stage := some "synthesis"
              model := some stage3_model
              topics := some topicsStr
              avg_rank := some (stage3_quality.avg_rank.getD 999)
              consensus_score := some (stage3_quality.consensus_score.getD 0)
              timestamp := some timestamp } }])

end CouncilRAG

/-- Upsert one document by id: overwrite the existing entry, else append
(Chroma's `upsert` id semantics). -/
def upsertOne (store : Store) (d : Doc) : Store :=
  if store.any fun e => e.id = d.id then
    store.map fun e => if e.id = d.id then d else e
  else store ++ [d]

/-- `collection.upsert(ids, documents, metadatas)` over a whole batch. -/
def upsertBatch (store : Store) (docs : List Doc) : Store :=
  docs.foldl upsertOne store

namespace CouncilRAG

/-- `CouncilRAG.index_session`: no-op when disabled, otherwise upsert the
session's documents as a single batch (`stage2_results` is accepted and
unused, as in the source; `timestamp` stands for `datetime.utcnow()`). -/
def index_session (store : Store) (enabled : Bool) (conversation_id : String)
    (turn_index : Int) (user_question : String) (stage1_results : List Stage1Result)
    (stage2_results : List String) (stage3_result : Stage3Result)
    (topics : List String) (quality_metrics : List (String × QualityMetric))
    (timestamp : String) : Store :=
  if enabled = false then store
  else
    let docs := sessionDocs conversation_id turn_index user_question stage1_results
      stage3_result topics quality_metrics timestamp
    if docs.isEmpty then store else upsertBatch store docs

end CouncilRAG

/-- Lookup a store entry by id (the abstract content of the collection at an
id, used to state idempotence of the write path). -/
def storeLookup (store : Store) (docId : String) : Option Doc :=
  findDoc docId store

/-- The global lexical candidate ranking `HybridRetriever.retrieve` walks:
ids of the `top_k * 2` best BM25 indices, best first. -/
def lexCandidateIds (store : Store) (bm25Scores : List ℚ) (top_k : ℕ) : List String :=
  ((argsortDesc bm25Scores).take (top_k * 2)).filterMap fun idx =>
    (store.map Doc.id).get? idx

/-- One-based position of an id in a ranked id list (`none` when absent);
`rankFrom docId l 1` is the rank the fusion formula speaks about. -/
def rankFrom (docId : String) : List String → ℕ → Option ℕ
  | [], _ => none
  | x :: rest, n => if x = docId then some n else rankFrom docId rest (n + 1)

/-- The result record step 4 of `HybridRetriever.retrieve` builds for one
sorted id: text and metadata resolved through the batched store fetch
(`doc_map.get(doc_id, ({}, ""))`). -/
def resultOf (store : Store) (score : String → ℚ) (docId : String) : RetrievalResult :=
  match findDoc docId store with
  | some d => { id := docId, score := score docId, metadata := d.meta, text := d.text }
  | none => { id := docId, score := score docId, metadata := {}, text := "" }

/-- The chunk a retrieval result becomes when it survives the threshold. -/
def chunkOf (r : RetrievalResult) : Chunk :=
  { id := r.id, similarity := r.score, metadata := r.metadata, text := r.text }

/-- Total estimated token cost of a chunk list. -/
def sumEst (chunks : List Chunk) : ℕ :=
  (chunks.map fun c => estTokens c.text).sum

/-- The context block a retrieval result would be formatted into, when its
metadata is complete. -/
def formattedOf (r : RetrievalResult) : Option String :=
  (CouncilRAG.formatChunk (chunkOf r)).toOption

/-- Concrete fixture: a fully-populated opinion document of conversation c1. -/
def docFull1 : Doc :=
  { id := "c1:turn:0:opinion:0:m1", text := "alpha beta gamma"
    meta :=
      { conversation_id := some "c1", turn_index := some 0, stage := some "opinion"
        model := some "m1", topics := some "[]", avg_rank := some (mkRat 1 1)
        consensus_score := some (mkRat 1 2), timestamp := some "t0" } }

/-- Concrete fixture: a second fully-populated document of conversation c1. -/
def docFull2 : Doc :=
  { id := "c1:turn:0:synthesis:chair", text := "delta epsilon"
    meta :=
      { conversation_id := some "c1", turn_index := some 0, stage := some "synthesis"
        model := some "chair", topics := some "[]", avg_rank := some (mkRat 999 1)
        consensus_score := some (mkRat 0 1), timestamp := some "t0" } }

/-- Concrete fixture: a document of the other conversation c2. -/
def docOther : Doc :=
  { id := "c2:turn:0:opinion:0:m1", text := "alpha beta gamma"
    meta :=
      { conversation_id := some "c2", turn_index := some 0, stage := some "opinion"
        model := some "m1", topics := some "[]", avg_rank := some (mkRat 999 1)
        consensus_score := some (mkRat 0 1), timestamp := some "t0" } }

/-- Concrete fixture: a conversation-c1 document whose metadata lacks
`turn_index` (and nothing else). -/
def docNoTurn : Doc :=
  { id := "c1:turn:1:opinion:0:m9", text := "hello world"
    meta :=
      { conversation_id := some "c1", stage := some "opinion", model := some "m9"
        topics := some "[]", avg_rank := some (mkRat 999 1)
        consensus_score := some (mkRat 0 1), timestamp := some "t1" } }

/-! ### Bridge lemmas for the executable arithmetic -/

theorem qAdd_eq (a b : ℚ) : qAdd a b = a + b := by
  have ha : ((a.den : ℚ)) ≠ 0 := Nat.cast_ne_zero.mpr a.den_nz
  have hb : ((b.den : ℚ)) ≠ 0 := Nat.cast_ne_zero.mpr b.den_nz
  rw [qAdd, Rat.mkRat_eq_div]
  push_cast
  conv_rhs => rw [← Rat.num_div_den a, ← Rat.num_div_den b]
  rw [div_add_div _ _ ha hb]
  ring_nf
theorem rrfTerm_eq (w : ℚ) (rank : ℕ) : rrfTerm w rank = w / (60 + (rank : ℚ)) := by
  have hw : ((w.den : ℚ)) ≠ 0 := Nat.cast_ne_zero.mpr w.den_nz
  rw [rrfTerm, Rat.mkRat_eq_div]
  push_cast
  rw [← div_div, Rat.num_div_den]

theorem mkRat_zero_one : mkRat 0 1 = 0 := by
  rw [Rat.mkRat_eq_div]
  norm_num

theorem mkRat_one_two : mkRat 1 2 = 1 / 2 := by
  rw [Rat.mkRat_eq_div]
  norm_num

theorem mkRat_one_hundred : mkRat 1 100 = 1 / 100 := by
  rw [Rat.mkRat_eq_div]
  norm_num

/-- The fused score in ordinary arithmetic: exactly the spec's RRF formula,
with a zero term for an absent source. -/
theorem fusedScore_eq (bm : List (String × ℕ)) (dn : List (String × ℕ × ℚ))
    (bm25_weight dense_weight : ℚ) (docId : String) :
    fusedScore bm dn bm25_weight dense_weight docId =
      (match dictGet docId bm with
       | some rank => bm25_weight / (60 + (rank : ℚ))
       | none => 0) +
      (match dictGet docId dn with
       | some p => dense_weight / (60 + (p.1 : ℚ))
       | none => 0) := by
  rw [fusedScore, qAdd_eq]
  cases dictGet docId bm <;> cases dictGet docId dn <;>
    simp [rrfTerm_eq, mkRat_zero_one]

/-! ### Association-list and store lemmas -/

theorem dictGet_mem {β : Type} {key : String} {v : β} :
    ∀ {l : List (String × β)}, dictGet key l = some v → (key, v) ∈ l := by
  intro l
  induction l with
  | nil => intro h; exact absurd h (by simp [dictGet])
  | cons p rest ih =>
    intro h
    rw [dictGet] at h
    by_cases hk : p.1 = key
    · rw [if_pos hk] at h
      injection h with hv
      have hp : p = (key, v) := by
        cases p
        simp_all
      rw [← hp]
      exact List.mem_cons_self _ _
    · rw [if_neg hk] at h
      exact List.mem_cons_of_mem _ (ih h)

theorem dictGet_isSome_iff {β : Type} {key : String} :
    ∀ {l : List (String × β)}, (dictGet key l).isSome ↔ key ∈ keysOf l := by
  intro l
  induction l with
  | nil => simp [dictGet, keysOf]
  | cons p rest ih =>
    rw [dictGet]
    simp only [keysOf, List.map_cons, List.mem_cons] at *
    by_cases hk : p.1 = key
    · simp [if_pos hk, hk]
    · rw [if_neg hk, ih]
      constructor
      · exact fun h => Or.inr h
      · rintro (h | h)
        · exact absurd h.symm hk
        · exact h

theorem mem_keysOf {β : Type} {docId : String} {l : List (String × β)} :
    docId ∈ keysOf l ↔ ∃ v, (docId, v) ∈ l := by
  simp [keysOf, List.mem_map, Prod.exists]

theorem findDoc_some {docId : String} {d : Doc} :
    ∀ {store : Store}, findDoc docId store = some d → d ∈ store ∧ d.id = docId := by
  intro store
  induction store with
  | nil => intro h; exact absurd h (by simp [findDoc])
  | cons e rest ih =>
    intro h
    rw [findDoc] at h
    by_cases he : e.id = docId
    · rw [if_pos he] at h
      cases h
      exact ⟨List.mem_cons_self _ _, he⟩
    · rw [if_neg he] at h
      obtain ⟨hmem, hid⟩ := ih h
      exact ⟨List.mem_cons_of_mem _ hmem, hid⟩

theorem findDoc_of_mem {d : Doc} :
    ∀ {store : Store}, (store.map Doc.id).Nodup → d ∈ store → findDoc d.id store = some d := by
  intro store
  induction store with
  | nil => intro _ h; exact absurd h (List.not_mem_nil d)
  | cons e rest ih =>
    intro hnodup hmem
    rw [List.map_cons, List.nodup_cons] at hnodup
    rw [findDoc]
    rcases List.mem_cons.mp hmem with rfl | hmem'
    · rw [if_pos rfl]
    · by_cases he : e.id = d.id
      · exact absurd (he ▸ List.mem_map_of_mem Doc.id hmem') hnodup.1
      · rw [if_neg he]
        exact ih hnodup.2 hmem'

theorem dictGet_map_meta {docId : String} :
    ∀ {store : Store},
      dictGet docId (store.map fun d => (d.id, d.meta)) = (findDoc docId store).map Doc.meta := by
  intro store
  induction store with
  | nil => simp [dictGet, findDoc]
  | cons e rest ih =>
    rw [List.map_cons, dictGet, findDoc]
    by_cases he : e.id = docId
    · rw [if_pos he, if_pos he, Option.map_some']
    · rw [if_neg he, if_neg he, ih]

/-! ### Unfolding and membership lemmas for the retrieval pipeline -/

theorem resultOf_id (store : Store) (score : String → ℚ) (docId : String) :
    (resultOf store score docId).id = docId := by
  rw [resultOf]
  cases findDoc docId store <;> rfl

theorem resultOf_score (store : Store) (score : String → ℚ) (docId : String) :
    (resultOf store score docId).score = score docId := by
  rw [resultOf]
  cases findDoc docId store <;> rfl

theorem retrieve_eq_cons (d : Doc) (ds : Store) (bm25Scores : List ℚ)
    (denseOracle : List (String × ℚ)) (enumOrder : List String)
    (conversation_id : String) (top_k : ℕ) (bm25_weight dense_weight : ℚ) :
    HybridRetriever.retrieve (d :: ds) bm25Scores denseOracle enumOrder conversation_id
        top_k bm25_weight dense_weight =
      (if enumOrder.isEmpty then []
       else
         ((enumOrder.insertionSort fun a b =>
             fusedScore (bm25Results (rebuildSnapshot (d :: ds)) bm25Scores conversation_id top_k)
               (denseResults (d :: ds) denseOracle conversation_id top_k)
               bm25_weight dense_weight b ≤
             fusedScore (bm25Results (rebuildSnapshot (d :: ds)) bm25Scores conversation_id top_k)
               (denseResults (d :: ds) denseOracle conversation_id top_k)
               bm25_weight dense_weight a).take top_k).map
           (resultOf (d :: ds)
             (fusedScore (bm25Results (rebuildSnapshot (d :: ds)) bm25Scores conversation_id top_k)
               (denseResults (d :: ds) denseOracle conversation_id top_k)
               bm25_weight dense_weight))) := rfl

theorem retrieve_nil (bm25Scores : List ℚ) (denseOracle : List (String × ℚ))
    (enumOrder : List String) (conversation_id : String) (top_k : ℕ)
    (bm25_weight dense_weight : ℚ) :
    HybridRetriever.retrieve [] bm25Scores denseOracle enumOrder conversation_id
      top_k bm25_weight dense_weight = [] := rfl

theorem mem_retrieve {r : RetrievalResult} {store : Store} {bm25Scores : List ℚ}
    {denseOracle : List (String × ℚ)} {enumOrder : List String}
    {conversation_id : String} {top_k : ℕ} {bm25_weight dense_weight : ℚ}
    (hmem : r ∈ HybridRetriever.retrieve store bm25Scores denseOracle enumOrder
      conversation_id top_k bm25_weight dense_weight) :
    r.id ∈ enumOrder ∧
      r.score =
        fusedScore (bm25Results (rebuildSnapshot store) bm25Scores conversation_id top_k)
          (denseResults store denseOracle conversation_id top_k)
          bm25_weight dense_weight r.id := by
  cases store with
  | nil => rw [retrieve_nil] at hmem; exact absurd hmem (List.not_mem_nil r)
  | cons d ds =>
    rw [retrieve_eq_cons] at hmem
    by_cases he : enumOrder.isEmpty
    · rw [if_pos he] at hmem
      exact absurd hmem (List.not_mem_nil r)
    · rw [if_neg he] at hmem
      obtain ⟨docId, hin, rfl⟩ := List.mem_map.mp hmem
      have hid := resultOf_id (d :: ds)
        (fusedScore (bm25Results (rebuildSnapshot (d :: ds)) bm25Scores conversation_id top_k)
          (denseResults (d :: ds) denseOracle conversation_id top_k)
          bm25_weight dense_weight) docId
      have hsc := resultOf_score (d :: ds)
        (fusedScore (bm25Results (rebuildSnapshot (d :: ds)) bm25Scores conversation_id top_k)
          (denseResults (d :: ds) denseOracle conversation_id top_k)
          bm25_weight dense_weight) docId
      refine ⟨?_, by rw [hsc, hid]⟩
      rw [hid]
      have h1 : docId ∈ List.insertionSort _ enumOrder := List.mem_of_mem_take hin
      exact (List.perm_insertionSort _ enumOrder).mem_iff.mp h1

/-! ### Source-list membership lemmas -/

theorem bm25Fold_conv {snap : Snapshot} {scores : List ℚ} {conversation_id : String} :
    ∀ {L : List ℕ} {n : ℕ} {docId : String} {rk : ℕ},
      (docId, rk) ∈ bm25Fold snap scores conversation_id L n →
      ∃ meta, dictGet docId snap.id_to_metadata = some meta ∧
        meta.conversation_id = some conversation_id := by
  intro L
  induction L with
  | nil => intro n docId rk h; simp [bm25Fold] at h
  | cons idx rest ih =>
    intro n docId rk h
    simp only [bm25Fold] at h
    rcases hg : snap.doc_ids.get? idx with _ | hid <;> simp only [hg] at h
    · exact ih h
    · by_cases hs : scores.getD idx 0 ≤ 0
      · rw [if_pos hs] at h
        exact ih h
      · rw [if_neg hs] at h
        rcases hm : dictGet hid snap.id_to_metadata with _ | meta <;> simp only [hm] at h
        · exact ih h
        · by_cases hc : meta.conversation_id = some conversation_id
          · rw [if_pos hc] at h
            rcases List.mem_cons.mp h with heq | htail
            · injection heq with h1 h2
              subst h1
              exact ⟨meta, hm, hc⟩
            · exact ih htail
          · rw [if_neg hc] at h
            exact ih h

theorem bm25Fold_exists_idx {snap : Snapshot} {scores : List ℚ} {conversation_id : String} :
    ∀ {L : List ℕ} {n : ℕ} {docId : String} {rk : ℕ},
      (docId, rk) ∈ bm25Fold snap scores conversation_id L n →
      ∃ idx ∈ L, snap.doc_ids.get? idx = some docId := by
  intro L
  induction L with
  | nil => intro n docId rk h; simp [bm25Fold] at h
  | cons idx rest ih =>
    intro n docId rk h
    simp only [bm25Fold] at h
    rcases hg : snap.doc_ids.get? idx with _ | hid <;> simp only [hg] at h
    · obtain ⟨i, hi, hgi⟩ := ih h
      exact ⟨i, List.mem_cons_of_mem _ hi, hgi⟩
    · by_cases hs : scores.getD idx 0 ≤ 0
      · rw [if_pos hs] at h
        obtain ⟨i, hi, hgi⟩ := ih h
        exact ⟨i, List.mem_cons_of_mem _ hi, hgi⟩
      · rw [if_neg hs] at h
        rcases hm : dictGet hid snap.id_to_metadata with _ | meta <;> simp only [hm] at h
        · obtain ⟨i, hi, hgi⟩ := ih h
          exact ⟨i, List.mem_cons_of_mem _ hi, hgi⟩
        · by_cases hc : meta.conversation_id = some conversation_id
          · rw [if_pos hc] at h
            rcases List.mem_cons.mp h with heq | htail
            · injection heq with h1 h2
              subst h1
              exact ⟨idx, List.mem_cons_self _ _, hg⟩
            · obtain ⟨i, hi, hgi⟩ := ih htail
              exact ⟨i, List.mem_cons_of_mem _ hi, hgi⟩
          · rw [if_neg hc] at h
            obtain ⟨i, hi, hgi⟩ := ih h
            exact ⟨i, List.mem_cons_of_mem _ hi, hgi⟩

theorem keysOf_denseFold : ∀ (L : List (String × ℚ)) (n : ℕ),
    keysOf (denseFold L n) = keysOf L := by
  intro L
  induction L with
  | nil => intro n; rfl
  | cons p rest ih =>
    intro n
    cases p with
    | mk docId dist => simp [denseFold, keysOf] at *; exact ih (n + 1)

theorem denseQuery_conv {store : Store} {denseOracle : List (String × ℚ)}
    {conversation_id : String} {n_results : ℕ} {docId : String} {dist : ℚ}
    (h : (docId, dist) ∈ denseQuery store denseOracle conversation_id n_results) :
    ∃ d, findDoc docId store = some d ∧ d.meta.conversation_id = some conversation_id := by
  rw [denseQuery] at h
  have h2 := List.mem_of_mem_take h
  have h3 := List.of_mem_filter h2
  rw [matchesConv] at h3
  rcases hf : findDoc docId store with _ | d
  · rw [hf] at h3
    exact absurd h3 (by simp)
  · rw [hf] at h3
    refine ⟨d, rfl, ?_⟩
    exact of_decide_eq_true h3

/-! ### Threshold filter and snapshot helpers -/

theorem rebuildSnapshot_meta : ∀ {store : Store}, store ≠ [] →
    (rebuildSnapshot store).id_to_metadata = store.map fun d => (d.id, d.meta) := by
  intro store h
  cases store with
  | nil => exact absurd rfl h
  | cons d ds => rfl

theorem mem_thresholdFilter {c : Chunk} {results : List RetrievalResult}
    (h : c ∈ CouncilRAG.thresholdFilter results) :
    ∃ r ∈ results, c = chunkOf r ∧ ¬r.score < mkRat 1 100 := by
  rw [CouncilRAG.thresholdFilter] at h
  obtain ⟨r, hr, hc⟩ := List.mem_filterMap.mp h
  by_cases hlt : r.score < mkRat 1 100
  · rw [if_pos hlt] at hc
    exact absurd hc (by simp)
  · rw [if_neg hlt] at hc
    injection hc with h1
    exact ⟨r, hr, h1.symm, hlt⟩

theorem chunkOf_id (r : RetrievalResult) : (chunkOf r).id = r.id := rfl

/-- C1. Conversation isolation: a document stored under conversation `A` never
surfaces from `HybridRetriever.retrieve` for a different conversation `B` —
neither in the result list nor among the chunks `CouncilRAG.retrieve` builds
its context from.  The lexical path drops candidates whose stored metadata
conversation does not match, and the dense path is pre-filtered by the store
on the same key. -/
theorem conversation_isolation
    (store : Store) (bm25Scores : List ℚ) (denseOracle : List (String × ℚ))
    (enumOrder : List String) (A B : String) (top_k : ℕ) (bm25_weight dense_weight : ℚ)
    (d : Doc)
    (hwf : (store.map Doc.id).Nodup) (hAB : A ≠ B) (hd : d ∈ store)
    (hconv : d.meta.conversation_id = some A)
    (henum : ValidEnum (bm25Results (rebuildSnapshot store) bm25Scores B top_k)
      (denseResults store denseOracle B top_k) enumOrder) :
    (∀ r ∈ HybridRetriever.retrieve store bm25Scores denseOracle enumOrder B top_k
        bm25_weight dense_weight, r.id ≠ d.id) ∧
      ∀ c ∈ CouncilRAG.thresholdFilter (HybridRetriever.retrieve store bm25Scores
          denseOracle enumOrder B top_k bm25_weight dense_weight), c.id ≠ d.id := by
  have hne : store ≠ [] := by
    intro hnil
    rw [hnil] at hd
    exact List.not_mem_nil d hd
  have main : ∀ r ∈ HybridRetriever.retrieve store bm25Scores denseOracle enumOrder B top_k
      bm25_weight dense_weight, r.id ≠ d.id := by
    intro r hr hid
    obtain ⟨hin, _⟩ := mem_retrieve hr
    have hBdoc : ∃ e, findDoc r.id store = some e ∧ e.meta.conversation_id = some B := by
      rcases henum.2.1 r.id hin with hbm | hdn
      · obtain ⟨rk, hpair⟩ := mem_keysOf.mp hbm
        obtain ⟨meta, hget, hmc⟩ := bm25Fold_conv hpair
        rw [rebuildSnapshot_meta hne, dictGet_map_meta] at hget
        rcases hf : findDoc r.id store with _ | e
        · rw [hf] at hget
          exact absurd hget (by simp)
        · rw [hf] at hget
          injection hget with hmeta
          exact ⟨e, rfl, hmeta ▸ hmc⟩
      · rw [denseResults] at hdn
        rw [keysOf_denseFold] at hdn
        obtain ⟨dist, hpair⟩ := mem_keysOf.mp hdn
        exact denseQuery_conv hpair
    obtain ⟨e, hfind, hB⟩ := hBdoc
    rw [hid, findDoc_of_mem hwf hd] at hfind
    injection hfind with he
    rw [← he, hconv] at hB
    injection hB with hAB'
    exact hAB hAB'
  refine ⟨main, ?_⟩
  intro c hc
  obtain ⟨r, hr, hcr, _⟩ := mem_thresholdFilter hc
  rw [hcr, chunkOf_id]
  exact main r hr

/-- C1 witness: with one document of conversation c1 and one of c2 in the
store, retrieving for c1 never returns the c2 document. -/
theorem conversation_isolation_witness :
    ({ id := "c1:turn:0:opinion:0:m1", score := mkRat 1 61, metadata := docFull1.meta,
       text := "alpha beta gamma" } : RetrievalResult).id ≠ docOther.id :=
  (conversation_isolation [docFull1, docOther] [mkRat 1 1, mkRat 1 1]
      [("c2:turn:0:opinion:0:m1", mkRat 1 5), ("c1:turn:0:opinion:0:m1", mkRat 1 10)]
      ["c1:turn:0:opinion:0:m1"] "c2" "c1" 10 (mkRat 1 2) (mkRat 1 2) docOther
      (by decide) (by decide) (by decide) (by decide) (by decide)).1
    _ (by decide)

/-- C10. Empty-collection safety: rebuilding from an empty full scan yields
the explicit empty index state (total, no failure), and retrieval against it
returns the empty result list and hence the empty context string. -/
theorem empty_collection_safety :
    rebuildSnapshot [] =
      { bm25_index := none, doc_ids := [], id_to_doc := [], id_to_metadata := [] } ∧
    (∀ (bm25Scores : List ℚ) (denseOracle : List (String × ℚ)) (enumOrder : List String)
        (conversation_id : String) (top_k : ℕ) (bm25_weight dense_weight : ℚ),
      HybridRetriever.retrieve [] bm25Scores denseOracle enumOrder conversation_id
        top_k bm25_weight dense_weight = []) ∧
    ∀ (bm25Scores : List ℚ) (denseOracle : List (String × ℚ)) (enumOrder : List String)
        (conversation_id : String),
      CouncilRAG.retrieve true none [] bm25Scores denseOracle enumOrder
        conversation_id = "" :=
  ⟨rfl, fun _ _ _ _ _ _ _ => rfl, fun _ _ _ _ => rfl⟩

/-- C6. Error downgrade: `CouncilRAG.retrieve` is total and never propagates a
failure — a disabled engine yields the empty string at once, and whenever the
`try:` body (`retrieveE`) fails for any reason the boundary returns the empty
string instead. -/
theorem error_downgrade :
    (∀ (fail : Option String) (store : Store) (bm25Scores : List ℚ)
        (denseOracle : List (String × ℚ)) (enumOrder : List String)
        (conversation_id : String),
      CouncilRAG.retrieve false fail store bm25Scores denseOracle enumOrder
        conversation_id = "") ∧
    ∀ (fail : Option String) (store : Store) (bm25Scores : List ℚ)
        (denseOracle : List (String × ℚ)) (enumOrder : List String)
        (conversation_id : String) (e : String),
      CouncilRAG.retrieveE fail store bm25Scores denseOracle enumOrder
          conversation_id = Except.error e →
      CouncilRAG.retrieve true fail store bm25Scores denseOracle enumOrder
        conversation_id = "" := by
  constructor
  · intro fail store bm25Scores denseOracle enumOrder conversation_id
    rfl
  · intro fail store bm25Scores denseOracle enumOrder conversation_id e herr
    rw [CouncilRAG.retrieve, if_neg (by simp), herr]

/-- C6 witness: a disabled engine and an injected store failure both yield the
empty context on concrete inputs. -/
theorem error_downgrade_witness :
    CouncilRAG.retrieve false none [docFull1] [mkRat 1 1] [] [] "c1" = "" ∧
    CouncilRAG.retrieve true (some "store unavailable") [docFull1] [mkRat 1 1] [] [] "c1" = "" :=
  ⟨error_downgrade.1 none [docFull1] [mkRat 1 1] [] [] "c1",
   error_downgrade.2 (some "store unavailable") [docFull1] [mkRat 1 1] [] [] "c1"
     "store unavailable" rfl⟩

/-! ### Budget packing lemmas -/

theorem sumEst_cons (c : Chunk) (l : List Chunk) :
    sumEst (c :: l) = estTokens c.text + sumEst l := by
  simp [sumEst]

theorem packChunks_spec :
    ∀ (chunks : List Chunk) (used_tokens : ℕ) (parts : List String),
      CouncilRAG.packChunks chunks used_tokens = Except.ok parts →
      used_tokens ≤ RAG_MAX_TOKENS →
      parts.length ≤ chunks.length ∧
        used_tokens + sumEst (chunks.take parts.length) ≤ RAG_MAX_TOKENS ∧
        (parts.length < chunks.length →
          used_tokens + sumEst (chunks.take (parts.length + 1)) > RAG_MAX_TOKENS) := by
  intro chunks
  induction chunks with
  | nil =>
    intro used parts h hle
    rw [CouncilRAG.packChunks] at h
    injection h with h1
    subst h1
    refine ⟨Nat.le_refl _, ?_, ?_⟩
    · simpa [sumEst] using hle
    · intro hlt
      exact absurd hlt (by simp)
  | cons c rest ih =>
    intro used parts h hle
    simp only [CouncilRAG.packChunks] at h
    by_cases hb : used + estTokens c.text > RAG_MAX_TOKENS
    · rw [if_pos hb] at h
      injection h with h1
      subst h1
      refine ⟨Nat.zero_le _, ?_, ?_⟩
      · simpa [sumEst] using hle
      · intro _
        simpa [sumEst] using hb
    · rw [if_neg hb] at h
      rcases hfmt : CouncilRAG.formatChunk c with e | piece <;> rw [hfmt] at h
      · exact absurd h (by simp)
      · rcases hrec : CouncilRAG.packChunks rest (used + estTokens c.text) with e | pieces <;>
          rw [hrec] at h
        · exact absurd h (by simp)
        · injection h with h1
          subst h1
          obtain ⟨ihlen, ihbud, ihstop⟩ := ih (used + estTokens c.text) pieces hrec
            (Nat.le_of_not_lt hb)
          refine ⟨by simpa using Nat.succ_le_succ ihlen, ?_, ?_⟩
          · rw [List.length_cons, List.take_succ_cons, sumEst_cons, ← Nat.add_assoc]
            exact ihbud
          · intro hlt
            rw [List.length_cons, List.take_succ_cons, sumEst_cons, ← Nat.add_assoc]
            exact ihstop (by simpa using Nat.lt_of_succ_lt_succ (by simpa using hlt))

/-- C4. Token budget: in every `CouncilRAG.retrieve` context assembly the
included chunks are an initial prefix of the threshold-filtered fused order;
their summed estimates (`estTokens`, i.e. `int(len(text.split()) * 1.3)`)
never exceed `RAG_MAX_TOKENS = 3000`, and when a chunk is left over, adding
the next chunk whole would overflow the budget — it is excluded whole and
everything after it is omitted. -/
theorem token_budget (store : Store) (bm25Scores : List ℚ)
    (denseOracle : List (String × ℚ)) (enumOrder : List String)
    (conversation_id : String) (parts : List String)
    (hpack : CouncilRAG.packChunks
      (CouncilRAG.thresholdFilter (HybridRetriever.retrieve store bm25Scores denseOracle
        enumOrder conversation_id 10 (mkRat 1 2) (mkRat 1 2))) 0 = Except.ok parts) :
    CouncilRAG.retrieveE none store bm25Scores denseOracle enumOrder conversation_id =
        Except.ok (String.intercalate "\n\n" parts) ∧
      parts.length ≤ (CouncilRAG.thresholdFilter (HybridRetriever.retrieve store bm25Scores
        denseOracle enumOrder conversation_id 10 (mkRat 1 2) (mkRat 1 2))).length ∧
      sumEst ((CouncilRAG.thresholdFilter (HybridRetriever.retrieve store bm25Scores
        denseOracle enumOrder conversation_id 10 (mkRat 1 2) (mkRat 1 2))).take
          parts.length) ≤ RAG_MAX_TOKENS ∧
      (parts.length < (CouncilRAG.thresholdFilter (HybridRetriever.retrieve store bm25Scores
          denseOracle enumOrder conversation_id 10 (mkRat 1 2) (mkRat 1 2))).length →
        sumEst ((CouncilRAG.thresholdFilter (HybridRetriever.retrieve store bm25Scores
          denseOracle enumOrder conversation_id 10 (mkRat 1 2) (mkRat 1 2))).take
            (parts.length + 1)) > RAG_MAX_TOKENS) := by
  obtain ⟨hlen, hbud, hstop⟩ := packChunks_spec _ 0 parts hpack (Nat.zero_le _)
  refine ⟨?_, hlen, by simpa using hbud, fun hlt => by simpa using hstop hlt⟩
  rw [CouncilRAG.retrieveE]
  simp only [hpack]

/-- C4 witness: a concrete assembly with one chunk stays within budget. -/
theorem token_budget_witness :
    CouncilRAG.retrieveE none [docFull1, docOther] [mkRat 1 1, mkRat 1 1]
        [("c2:turn:0:opinion:0:m1", mkRat 1 5), ("c1:turn:0:opinion:0:m1", mkRat 1 10)]
        ["c1:turn:0:opinion:0:m1"] "c1" =
      Except.ok (String.intercalate "\n\n"
        ["[Turn 0 | Stage opinion | Model: m1]\nalpha beta gamma"]) ∧
    sumEst ((CouncilRAG.thresholdFilter (HybridRetriever.retrieve [docFull1, docOther]
      [mkRat 1 1, mkRat 1 1]
      [("c2:turn:0:opinion:0:m1", mkRat 1 5), ("c1:turn:0:opinion:0:m1", mkRat 1 10)]
      ["c1:turn:0:opinion:0:m1"] "c1" 10 (mkRat 1 2) (mkRat 1 2))).take 1) ≤
        RAG_MAX_TOKENS :=
  ⟨(token_budget [docFull1, docOther] [mkRat 1 1, mkRat 1 1]
      [("c2:turn:0:opinion:0:m1", mkRat 1 5), ("c1:turn:0:opinion:0:m1", mkRat 1 10)]
      ["c1:turn:0:opinion:0:m1"] "c1"
      ["[Turn 0 | Stage opinion | Model: m1]\nalpha beta gamma"] rfl).1,
   (token_budget [docFull1, docOther] [mkRat 1 1, mkRat 1 1]
      [("c2:turn:0:opinion:0:m1", mkRat 1 5), ("c1:turn:0:opinion:0:m1", mkRat 1 10)]
      ["c1:turn:0:opinion:0:m1"] "c1"
      ["[Turn 0 | Stage opinion | Model: m1]\nalpha beta gamma"] rfl).2.2.1⟩

/-! ### Order preservation lemmas -/

theorem packChunks_sublist :
    ∀ (chunks : List Chunk) (used_tokens : ℕ) (parts : List String),
      CouncilRAG.packChunks chunks used_tokens = Except.ok parts →
      parts.Sublist (chunks.filterMap fun c => (CouncilRAG.formatChunk c).toOption) := by
  intro chunks
  induction chunks with
  | nil =>
    intro used parts h
    rw [CouncilRAG.packChunks] at h
    injection h with h1
    subst h1
    simp
  | cons c rest ih =>
    intro used parts h
    simp only [CouncilRAG.packChunks] at h
    by_cases hb : used + estTokens c.text > RAG_MAX_TOKENS
    · rw [if_pos hb] at h
      injection h with h1
      subst h1
      exact List.nil_sublist _
    · rw [if_neg hb] at h
      rcases hfmt : CouncilRAG.formatChunk c with e | piece <;> rw [hfmt] at h
      · exact absurd h (by simp)
      · rcases hrec : CouncilRAG.packChunks rest (used + estTokens c.text) with e | pieces <;>
          rw [hrec] at h
        · exact absurd h (by simp)
        · injection h with h1
          subst h1
          rw [List.filterMap_cons, hfmt]
          simp only [Except.toOption]
          exact List.Sublist.cons₂ _ (ih _ _ hrec)

theorem thresholdFilter_sublist :
    ∀ results : List RetrievalResult,
      (CouncilRAG.thresholdFilter results).Sublist (results.map chunkOf) := by
  intro results
  induction results with
  | nil => simp [CouncilRAG.thresholdFilter]
  | cons r rest ih =>
    rw [CouncilRAG.thresholdFilter, List.filterMap_cons, List.map_cons]
    by_cases hlt : r.score < mkRat 1 100
    · simp only [if_pos hlt]
      exact List.Sublist.cons _ ih
    · simp only [if_neg hlt]
      exact List.Sublist.cons₂ _ ih

theorem sorted_take_map_scores (score : String → ℚ) (store : Store)
    (enumOrder : List String) (top_k : ℕ) :
    ((((enumOrder.insertionSort fun a b => score b ≤ score a).take top_k).map
      (resultOf store score)).map RetrievalResult.score).Pairwise (· ≥ ·) := by
  haveI : IsTotal String (fun a b => score b ≤ score a) := ⟨fun a b => le_total _ _⟩
  haveI : IsTrans String (fun a b => score b ≤ score a) :=
    ⟨fun a b c hab hbc => le_trans hbc hab⟩
  have hs : List.Sorted (fun a b => score b ≤ score a)
      (enumOrder.insertionSort fun a b => score b ≤ score a) :=
    List.sorted_insertionSort _ _
  have ht : List.Pairwise (fun a b => score b ≤ score a)
      ((enumOrder.insertionSort fun a b => score b ≤ score a).take top_k) :=
    List.Pairwise.sublist (List.take_sublist _ _) hs
  rw [List.map_map, List.pairwise_map]
  refine ht.imp ?_
  intro a b hab
  show (resultOf store score a).score ≥ (resultOf store score b).score
  rw [resultOf_score, resultOf_score]
  exact hab

theorem retrieve_scores_sorted (store : Store) (bm25Scores : List ℚ)
    (denseOracle : List (String × ℚ)) (enumOrder : List String)
    (conversation_id : String) (top_k : ℕ) (bm25_weight dense_weight : ℚ) :
    ((HybridRetriever.retrieve store bm25Scores denseOracle enumOrder conversation_id
      top_k bm25_weight dense_weight).map RetrievalResult.score).Pairwise (· ≥ ·) := by
  cases store with
  | nil => rw [retrieve_nil]; simp
  | cons d ds =>
    rw [retrieve_eq_cons]
    by_cases he : enumOrder.isEmpty
    · rw [if_pos he]; simp
    · rw [if_neg he]
      exact sorted_take_map_scores _ _ _ _

/-- C5. Order preservation: the context string of `CouncilRAG.retrieve` is the
join of a subsequence of the fused results' formatted blocks, in fused order —
threshold filtering and budget packing only delete entries — and the fused
result scores are non-increasing, so the blocks follow descending fused score
(never re-sorted by size or recency). -/
theorem order_preservation (store : Store) (bm25Scores : List ℚ)
    (denseOracle : List (String × ℚ)) (enumOrder : List String)
    (conversation_id : String) (parts : List String)
    (hpack : CouncilRAG.packChunks
      (CouncilRAG.thresholdFilter (HybridRetriever.retrieve store bm25Scores denseOracle
        enumOrder conversation_id 10 (mkRat 1 2) (mkRat 1 2))) 0 = Except.ok parts) :
    CouncilRAG.retrieveE none store bm25Scores denseOracle enumOrder conversation_id =
        Except.ok (String.intercalate "\n\n" parts) ∧
      parts.Sublist ((HybridRetriever.retrieve store bm25Scores denseOracle enumOrder
        conversation_id 10 (mkRat 1 2) (mkRat 1 2)).filterMap formattedOf) ∧
      ((HybridRetriever.retrieve store bm25Scores denseOracle enumOrder conversation_id
        10 (mkRat 1 2) (mkRat 1 2)).map RetrievalResult.score).Pairwise (· ≥ ·) := by
  refine ⟨?_, ?_, retrieve_scores_sorted _ _ _ _ _ _ _ _⟩
  · rw [CouncilRAG.retrieveE]
    simp only [hpack]
  · have h2 := packChunks_sublist _ _ _ hpack
    have h3 := (thresholdFilter_sublist (HybridRetriever.retrieve store bm25Scores
      denseOracle enumOrder conversation_id 10 (mkRat 1 2) (mkRat 1 2))).filterMap
      fun c => (CouncilRAG.formatChunk c).toOption
    rw [List.filterMap_map] at h3
    exact h2.trans h3

/-- C5 witness: the concrete one-chunk assembly is a subsequence of the fused
blocks and the fused scores are non-increasing. -/
theorem order_preservation_witness :
    CouncilRAG.retrieveE none [docFull1, docOther] [mkRat 1 1, mkRat 1 1]
        [("c2:turn:0:opinion:0:m1", mkRat 1 5), ("c1:turn:0:opinion:0:m1", mkRat 1 10)]
        ["c1:turn:0:opinion:0:m1"] "c1" =
      Except.ok (String.intercalate "\n\n"
        ["[Turn 0 | Stage opinion | Model: m1]\nalpha beta gamma"]) ∧
    (["[Turn 0 | Stage opinion | Model: m1]\nalpha beta gamma"] : List String).Sublist
      ((HybridRetriever.retrieve [docFull1, docOther] [mkRat 1 1, mkRat 1 1]
        [("c2:turn:0:opinion:0:m1", mkRat 1 5), ("c1:turn:0:opinion:0:m1", mkRat 1 10)]
        ["c1:turn:0:opinion:0:m1"] "c1" 10 (mkRat 1 2) (mkRat 1 2)).filterMap
          formattedOf) :=
  ⟨(order_preservation [docFull1, docOther] [mkRat 1 1, mkRat 1 1]
      [("c2:turn:0:opinion:0:m1", mkRat 1 5), ("c1:turn:0:opinion:0:m1", mkRat 1 10)]
      ["c1:turn:0:opinion:0:m1"] "c1"
      ["[Turn 0 | Stage opinion | Model: m1]\nalpha beta gamma"] rfl).1,
   (order_preservation [docFull1, docOther] [mkRat 1 1, mkRat 1 1]
      [("c2:turn:0:opinion:0:m1", mkRat 1 5), ("c1:turn:0:opinion:0:m1", mkRat 1 10)]
      ["c1:turn:0:opinion:0:m1"] "c1"
      ["[Turn 0 | Stage opinion | Model: m1]\nalpha beta gamma"] rfl).2.1⟩

/-! ### Threshold arithmetic -/

theorem half_rrf_below_threshold (n : ℕ) : (1 / 2 : ℚ) / (60 + (n : ℚ)) < 1 / 100 := by
  have h60 : (0 : ℚ) < 60 + (n : ℚ) := by positivity
  rw [div_lt_div_iff₀ h60 (by norm_num)]
  have hn : (0 : ℚ) ≤ (n : ℚ) := Nat.cast_nonneg n
  linarith

/-- C3. With the default weights 0.5/0.5 any candidate present in only one
source list scores at most `0.5 / 61 < 0.01`, so every chunk surviving the
`0.01` threshold of `CouncilRAG.retrieve` is ranked by **both** the lexical
and the dense retriever. -/
theorem single_source_dropped (store : Store) (bm25Scores : List ℚ)
    (denseOracle : List (String × ℚ)) (enumOrder : List String)
    (conversation_id : String) :
    ∀ c ∈ CouncilRAG.thresholdFilter (HybridRetriever.retrieve store bm25Scores
        denseOracle enumOrder conversation_id 10 (mkRat 1 2) (mkRat 1 2)),
      (dictGet c.id (bm25Results (rebuildSnapshot store) bm25Scores conversation_id
        10)).isSome ∧
        (dictGet c.id (denseResults store denseOracle conversation_id 10)).isSome := by
  intro c hc
  obtain ⟨r, hr, hcr, hge⟩ := mem_thresholdFilter hc
  obtain ⟨_, hscore⟩ := mem_retrieve hr
  rw [hcr, chunkOf_id]
  rw [fusedScore_eq] at hscore
  rw [mkRat_one_hundred] at hge
  rcases hbm : dictGet r.id (bm25Results (rebuildSnapshot store) bm25Scores
      conversation_id 10) with _ | rk <;>
    rcases hdn : dictGet r.id (denseResults store denseOracle conversation_id 10)
      with _ | p <;>
    simp only [hbm, hdn] at hscore
  · exfalso
    apply hge
    rw [hscore]
    norm_num
  · exfalso
    apply hge
    rw [hscore, mkRat_one_two]
    simpa using half_rrf_below_threshold p.1
  · exfalso
    apply hge
    rw [hscore, mkRat_one_two]
    simpa using half_rrf_below_threshold rk
  · exact ⟨rfl, rfl⟩

/-- C3 witness: the surviving concrete chunk is present in both source lists. -/
theorem single_source_dropped_witness :
    (dictGet "c1:turn:0:opinion:0:m1" (bm25Results (rebuildSnapshot [docFull1, docOther])
      [mkRat 1 1, mkRat 1 1] "c1" 10)).isSome ∧
    (dictGet "c1:turn:0:opinion:0:m1" (denseResults [docFull1, docOther]
      [("c2:turn:0:opinion:0:m1", mkRat 1 5), ("c1:turn:0:opinion:0:m1", mkRat 1 10)]
      "c1" 10)).isSome :=
  single_source_dropped [docFull1, docOther] [mkRat 1 1, mkRat 1 1]
    [("c2:turn:0:opinion:0:m1", mkRat 1 5), ("c1:turn:0:opinion:0:m1", mkRat 1 10)]
    ["c1:turn:0:opinion:0:m1"] "c1"
    { id := "c1:turn:0:opinion:0:m1", similarity := mkRat 1 61,
      metadata := docFull1.meta, text := "alpha beta gamma" }
    (by decide)

/-! ### Rank-position lemmas for the fusion formula -/

theorem get?_inj_of_nodup {α : Type} {l : List α} (hn : l.Nodup) {i j : ℕ} {x : α}
    (hi : l.get? i = some x) (hj : l.get? j = some x) : i = j := by
  obtain ⟨hi', hgi⟩ := List.get?_eq_some.mp hi
  obtain ⟨hj', hgj⟩ := List.get?_eq_some.mp hj
  have hg : l.get ⟨i, hi'⟩ = l.get ⟨j, hj'⟩ := by rw [hgi, hgj]
  have h2 := (List.Nodup.get_inj_iff hn).mp hg
  exact congrArg Fin.val h2

theorem rebuildSnapshot_docids : ∀ {store : Store}, store ≠ [] →
    (rebuildSnapshot store).doc_ids = store.map Doc.id := by
  intro store h
  cases store with
  | nil => exact absurd rfl h
  | cons d ds => rfl

theorem bm25Fold_nil_ids {snap : Snapshot} {scores : List ℚ} {conversation_id : String}
    (hnil : snap.doc_ids = []) :
    ∀ (L : List ℕ) (n : ℕ), bm25Fold snap scores conversation_id L n = [] := by
  intro L
  induction L with
  | nil => intro n; rfl
  | cons idx rest ih =>
    intro n
    have hg : snap.doc_ids.get? idx = none := by
      rw [hnil]
      exact List.get?_eq_none.mpr (Nat.zero_le _)
    simp only [bm25Fold, hg]
    exact ih (n + 1)

theorem argsortDesc_nodup (scores : List ℚ) : (argsortDesc scores).Nodup :=
  ((List.perm_insertionSort _ _).nodup_iff).mpr (List.nodup_range _)

theorem mem_argsortDesc {scores : List ℚ} {idx : ℕ} (h : idx ∈ argsortDesc scores) :
    idx < scores.length :=
  List.mem_range.mp ((List.perm_insertionSort _ _).mem_iff.mp h)

theorem bm25Fold_rankFrom {snap : Snapshot} {scores : List ℚ} {conversation_id : String}
    (hids : snap.doc_ids.Nodup) :
    ∀ {L : List ℕ}, L.Nodup → (∀ idx ∈ L, idx < snap.doc_ids.length) →
      ∀ {n : ℕ} {docId : String} {rk : ℕ},
        dictGet docId (bm25Fold snap scores conversation_id L n) = some rk →
        rankFrom docId (L.filterMap snap.doc_ids.get?) (n + 1) = some rk := by
  intro L
  induction L with
  | nil =>
    intro _ _ n docId rk h
    exact absurd h (by simp [bm25Fold, dictGet])
  | cons idx rest ih =>
    intro hnd hbound n docId rk h
    have hidx : idx < snap.doc_ids.length := hbound idx (List.mem_cons_self _ _)
    have hidx_notin := (List.nodup_cons.mp hnd).1
    have hrest_nd := (List.nodup_cons.mp hnd).2
    have hrest_bound : ∀ i ∈ rest, i < snap.doc_ids.length :=
      fun i hi => hbound i (List.mem_cons_of_mem _ hi)
    rcases hg : snap.doc_ids.get? idx with _ | hid
    · rw [List.get?_eq_none] at hg
      omega
    · simp only [List.filterMap_cons, hg]
      simp only [bm25Fold, hg] at h
      rw [rankFrom]
      by_cases hk : hid = docId
      · rw [if_pos hk]
        by_cases hs : scores.getD idx 0 ≤ 0
        · rw [if_pos hs] at h
          exfalso
          obtain ⟨i, hi, hgi⟩ := bm25Fold_exists_idx (dictGet_mem h)
          exact hidx_notin (get?_inj_of_nodup hids hgi (hk ▸ hg) ▸ hi)
        · rw [if_neg hs] at h
          rcases hm : dictGet hid snap.id_to_metadata with _ | meta <;> simp only [hm] at h
          · exfalso
            obtain ⟨i, hi, hgi⟩ := bm25Fold_exists_idx (dictGet_mem h)
            exact hidx_notin (get?_inj_of_nodup hids hgi (hk ▸ hg) ▸ hi)
          · by_cases hc : meta.conversation_id = some conversation_id
            · rw [if_pos hc, dictGet, if_pos hk] at h
              injection h with h1
              rw [h1]
            · rw [if_neg hc] at h
              exfalso
              obtain ⟨i, hi, hgi⟩ := bm25Fold_exists_idx (dictGet_mem h)
              exact hidx_notin (get?_inj_of_nodup hids hgi (hk ▸ hg) ▸ hi)
      · rw [if_neg hk]
        have htail : dictGet docId (bm25Fold snap scores conversation_id rest (n + 1)) =
            some rk := by
          by_cases hs : scores.getD idx 0 ≤ 0
          · rwa [if_pos hs] at h
          · rw [if_neg hs] at h
            rcases hm : dictGet hid snap.id_to_metadata with _ | meta <;> simp only [hm] at h
            · exact h
            · by_cases hc : meta.conversation_id = some conversation_id
              · rw [if_pos hc, dictGet, if_neg hk] at h
                exact h
              · rwa [if_neg hc] at h
        exact ih hrest_nd hrest_bound htail

theorem denseFold_rankFrom :
    ∀ {L : List (String × ℚ)} {n : ℕ} {docId : String} {rk : ℕ} {sim : ℚ},
      dictGet docId (denseFold L n) = some (rk, sim) →
      rankFrom docId (keysOf L) (n + 1) = some rk := by
  intro L
  induction L with
  | nil =>
    intro n docId rk sim h
    exact absurd h (by simp [denseFold, dictGet])
  | cons p rest ih =>
    cases p with
    | mk hid dist =>
      intro n docId rk sim h
      simp only [denseFold, dictGet] at h
      simp only [keysOf, List.map_cons, rankFrom]
      by_cases hk : hid = docId
      · rw [if_pos hk] at h
        rw [if_pos hk]
        injection h with h1
        have : rk = n + 1 := (Prod.mk.injEq _ _ _ _ ▸ h1).1.symm
        rw [this]
      · rw [if_neg hk] at h
        rw [if_neg hk]
        exact ih h

/-- C2. RRF formula: every fused result's score is exactly
`wLex / (60 + rankLex) + wDense / (60 + rankDense)` with a zero term for an
absent source; the recorded ranks are the 1-based positions in the respective
truncated source rankings (so ranks start at 1 for the best entry), and both
source candidate lists are pre-truncated to `2 × top_k` entries. -/
theorem rrf_formula (store : Store) (bm25Scores : List ℚ)
    (denseOracle : List (String × ℚ)) (enumOrder : List String)
    (conversation_id : String) (top_k : ℕ) (bm25_weight dense_weight : ℚ)
    (hlen : bm25Scores.length = store.length)
    (hwf : (store.map Doc.id).Nodup) :
    (∀ r ∈ HybridRetriever.retrieve store bm25Scores denseOracle enumOrder
        conversation_id top_k bm25_weight dense_weight,
      r.score =
        (match dictGet r.id (bm25Results (rebuildSnapshot store) bm25Scores
            conversation_id top_k) with
         | some rank => bm25_weight / (60 + (rank : ℚ))
         | none => 0) +
        (match dictGet r.id (denseResults store denseOracle conversation_id top_k) with
         | some p => dense_weight / (60 + (p.1 : ℚ))
         | none => 0)) ∧
    (∀ (docId : String) (rk : ℕ),
      dictGet docId (bm25Results (rebuildSnapshot store) bm25Scores conversation_id
          top_k) = some rk →
      rankFrom docId (lexCandidateIds store bm25Scores top_k) 1 = some rk) ∧
    (∀ (docId : String) (rk : ℕ) (sim : ℚ),
      dictGet docId (denseResults store denseOracle conversation_id top_k) =
          some (rk, sim) →
      rankFrom docId (keysOf (denseQuery store denseOracle conversation_id
        (top_k * 2))) 1 = some rk) ∧
    (lexCandidateIds store bm25Scores top_k).length ≤ top_k * 2 ∧
    (denseQuery store denseOracle conversation_id (top_k * 2)).length ≤ top_k * 2 := by
  refine ⟨?_, ?_, ?_, ?_, ?_⟩
  · intro r hr
    rw [(mem_retrieve hr).2, fusedScore_eq]
  · intro docId rk h
    cases store with
    | nil =>
      rw [bm25Results, bm25Fold_nil_ids rfl] at h
      exact absurd h (by simp [dictGet])
    | cons d ds =>
      have hd : (rebuildSnapshot (d :: ds)).doc_ids = (d :: ds).map Doc.id := rfl
      have hids : (rebuildSnapshot (d :: ds)).doc_ids.Nodup := by rw [hd]; exact hwf
      rw [bm25Results] at h
      have hnd : ((argsortDesc bm25Scores).take (top_k * 2)).Nodup :=
        List.Nodup.sublist (List.take_sublist _ _) (argsortDesc_nodup _)
      have hbound : ∀ idx ∈ (argsortDesc bm25Scores).take (top_k * 2),
          idx < (rebuildSnapshot (d :: ds)).doc_ids.length := by
        intro i hi
        have h1 : i < bm25Scores.length := mem_argsortDesc (List.mem_of_mem_take hi)
        rw [hd, List.length_map, ← hlen]
        exact h1
      exact bm25Fold_rankFrom hids hnd hbound h
  · intro docId rk sim h
    rw [denseResults] at h
    exact denseFold_rankFrom h
  · exact le_trans (List.length_filterMap_le _ _) (List.length_take_le _ _)
  · exact List.length_take_le _ _

/-- C2 witness: on a concrete two-document store the fused score of the
returned result matches the formula, and the recorded lexical rank is the
position in the truncated lexical candidate ranking. -/
theorem rrf_formula_witness :
    (({ id := "c1:turn:0:opinion:0:m1", score := mkRat 1 61, metadata := docFull1.meta,
        text := "alpha beta gamma" } : RetrievalResult)).score =
      (match dictGet "c1:turn:0:opinion:0:m1"
          (bm25Results (rebuildSnapshot [docFull1, docOther]) [mkRat 1 1, mkRat 1 1]
            "c1" 10) with
       | some rank => mkRat 1 2 / (60 + (rank : ℚ))
       | none => 0) +
      (match dictGet "c1:turn:0:opinion:0:m1"
          (denseResults [docFull1, docOther]
            [("c2:turn:0:opinion:0:m1", mkRat 1 5), ("c1:turn:0:opinion:0:m1", mkRat 1 10)]
            "c1" 10) with
       | some p => mkRat 1 2 / (60 + (p.1 : ℚ))
       | none => 0) ∧
    rankFrom "c1:turn:0:opinion:0:m1"
      (lexCandidateIds [docFull1, docOther] [mkRat 1 1, mkRat 1 1] 10) 1 = some 1 :=
  ⟨(rrf_formula [docFull1, docOther] [mkRat 1 1, mkRat 1 1]
      [("c2:turn:0:opinion:0:m1", mkRat 1 5), ("c1:turn:0:opinion:0:m1", mkRat 1 10)]
      ["c1:turn:0:opinion:0:m1"] "c1" 10 (mkRat 1 2) (mkRat 1 2) rfl (by decide)).1
      _ (by decide),
   (rrf_formula [docFull1, docOther] [mkRat 1 1, mkRat 1 1]
      [("c2:turn:0:opinion:0:m1", mkRat 1 5), ("c1:turn:0:opinion:0:m1", mkRat 1 10)]
      ["c1:turn:0:opinion:0:m1"] "c1" 10 (mkRat 1 2) (mkRat 1 2) rfl (by decide)).2.1
      "c1:turn:0:opinion:0:m1" 1 (by decide)⟩

/-! ### Upsert lemmas for the write path -/

theorem findDoc_append (i : String) :
    ∀ (s t : Store), findDoc i (s ++ t) =
      match findDoc i s with
      | some x => some x
      | none => findDoc i t := by
  intro s t
  induction s with
  | nil => simp [findDoc]
  | cons e rest ih =>
    rw [List.cons_append, findDoc, findDoc]
    by_cases he : e.id = i
    · rw [if_pos he, if_pos he]
    · rw [if_neg he, if_neg he, ih]

theorem findDoc_map_replace (d : Doc) (i : String) :
    ∀ store : Store, findDoc i (store.map fun e => if e.id = d.id then d else e) =
      if i = d.id then
        (if (store.any fun e => e.id = d.id) = true then some d else none)
      else findDoc i store := by
  intro store
  induction store with
  | nil =>
    by_cases hi : i = d.id <;> simp [findDoc, hi]
  | cons e rest ih =>
    rw [List.map_cons, findDoc]
    by_cases he : e.id = d.id
    · rw [if_pos he]
      by_cases hi : i = d.id
      · rw [if_pos (show d.id = i from hi.symm), if_pos hi]
        have : ((e :: rest).any fun e => e.id = d.id) = true := by
          simp [List.any_cons, he]
        rw [if_pos this]
      · rw [if_neg (fun hh => hi hh.symm), ih, if_neg hi, if_neg hi, findDoc,
          if_neg (fun hh => hi (hh.symm.trans he))]
    · rw [if_neg he]
      by_cases hei : e.id = i
      · rw [if_pos hei]
        by_cases hi : i = d.id
        · exact absurd (hei.trans hi) he
        · rw [if_neg hi, findDoc, if_pos hei]
      · rw [if_neg hei, ih]
        by_cases hi : i = d.id
        · rw [if_pos hi, if_pos hi]
          have hiff : ((e :: rest).any fun e => e.id = d.id) =
              (rest.any fun e => e.id = d.id) := by
            simp [List.any_cons, he]
          rw [hiff]
        · rw [if_neg hi, if_neg hi, findDoc, if_neg hei]

theorem storeLookup_upsertOne (store : Store) (d : Doc) (i : String) :
    storeLookup (upsertOne store d) i = if i = d.id then some d else storeLookup store i := by
  rw [upsertOne, storeLookup]
  by_cases hany : (store.any fun e => e.id = d.id) = true
  · rw [if_pos hany, findDoc_map_replace]
    by_cases hi : i = d.id
    · rw [if_pos hi, if_pos hany, if_pos hi]
    · rw [if_neg hi, if_neg hi]
      rfl
  · rw [if_neg hany, findDoc_append]
    by_cases hi : i = d.id
    · rw [if_pos hi]
      have hnone : findDoc i store = none := by
        rcases hf : findDoc i store with _ | f
        · rfl
        · obtain ⟨hmem, hid⟩ := findDoc_some hf
          exact absurd (by
            rw [List.any_eq_true]
            exact ⟨f, hmem, by simp [hid, hi]⟩) hany
      rw [hnone]
      rw [findDoc, if_pos hi.symm]
    · rw [if_neg hi]
      have hrhs : storeLookup store i = findDoc i store := rfl
      rw [hrhs]
      rcases hf : findDoc i store with _ | f
      · show findDoc i [d] = none
        rw [findDoc, if_neg (fun hh => hi hh.symm)]
        rfl
      · rfl

theorem storeLookup_upsertBatch :
    ∀ (docs : List Doc) (store : Store) (i : String),
      storeLookup (upsertBatch store docs) i =
        match findDoc i docs.reverse with
        | some x => some x
        | none => storeLookup store i := by
  intro docs
  induction docs with
  | nil =>
    intro store i
    simp [upsertBatch, findDoc]
  | cons d ds ih =>
    intro store i
    rw [show upsertBatch store (d :: ds) = upsertBatch (upsertOne store d) ds from rfl, ih,
      List.reverse_cons, findDoc_append]
    cases hf : findDoc i ds.reverse with
    | some x => rfl
    | none =>
      rw [storeLookup_upsertOne]
      by_cases hi : i = d.id
      · rw [if_pos hi, findDoc, if_pos hi.symm]
      · rw [if_neg hi, findDoc, if_neg (fun hh => hi hh.symm), findDoc]

theorem map_id_upsertOne (store : Store) (d : Doc) :
    (upsertOne store d).map Doc.id =
      if (store.any fun e => e.id = d.id) = true then store.map Doc.id
      else store.map Doc.id ++ [d.id] := by
  rw [upsertOne]
  by_cases hany : (store.any fun e => e.id = d.id) = true
  · rw [if_pos hany, if_pos hany, List.map_map]
    refine List.map_congr_left ?_
    intro e _
    show Doc.id (if e.id = d.id then d else e) = e.id
    by_cases he : e.id = d.id
    · rw [if_pos he]
      exact he.symm
    · rw [if_neg he]
  · rw [if_neg hany, if_neg hany, List.map_append]
    rfl

theorem any_id_eq_true_iff (store : Store) (d : Doc) :
    (store.any fun e => e.id = d.id) = true ↔ d.id ∈ store.map Doc.id := by
  rw [List.any_eq_true]
  constructor
  · rintro ⟨e, hmem, he⟩
    have : e.id = d.id := of_decide_eq_true he
    exact this ▸ List.mem_map_of_mem Doc.id hmem
  · intro h
    obtain ⟨e, hmem, he⟩ := List.mem_map.mp h
    exact ⟨e, hmem, by simp [he]⟩

theorem ids_upsertBatch_superset :
    ∀ (docs : List Doc) (store : Store),
      (∀ i ∈ store.map Doc.id, i ∈ (upsertBatch store docs).map Doc.id) ∧
        ∀ d ∈ docs, d.id ∈ (upsertBatch store docs).map Doc.id := by
  intro docs
  induction docs with
  | nil => exact fun store => ⟨fun i hi => hi, fun d hd => absurd hd (List.not_mem_nil d)⟩
  | cons d ds ih =>
    intro store
    have hstep : ∀ i ∈ store.map Doc.id, i ∈ (upsertOne store d).map Doc.id := by
      intro i hi
      rw [map_id_upsertOne]
      by_cases hany : (store.any fun e => e.id = d.id) = true
      · rwa [if_pos hany]
      · rw [if_neg hany]
        exact List.mem_append_left _ hi
    have hd_mem : d.id ∈ (upsertOne store d).map Doc.id := by
      rw [map_id_upsertOne]
      by_cases hany : (store.any fun e => e.id = d.id) = true
      · rw [if_pos hany]
        exact (any_id_eq_true_iff store d).mp hany
      · rw [if_neg hany]
        exact List.mem_append_right _ (List.mem_singleton_self _)
    have hbatch : upsertBatch store (d :: ds) = upsertBatch (upsertOne store d) ds := rfl
    rw [hbatch]
    refine ⟨fun i hi => (ih (upsertOne store d)).1 i (hstep i hi), ?_⟩
    intro e he
    rcases List.mem_cons.mp he with heq | he'
    · rw [heq]
      exact (ih (upsertOne store d)).1 _ hd_mem
    · exact (ih (upsertOne store d)).2 e he'

theorem ids_upsertBatch_stable :
    ∀ (docs : List Doc) (store : Store),
      (∀ d ∈ docs, d.id ∈ store.map Doc.id) →
      (upsertBatch store docs).map Doc.id = store.map Doc.id := by
  intro docs
  induction docs with
  | nil => exact fun store _ => rfl
  | cons d ds ih =>
    intro store hall
    have hany : (store.any fun e => e.id = d.id) = true :=
      (any_id_eq_true_iff store d).mpr (hall d (List.mem_cons_self _ _))
    have hone : (upsertOne store d).map Doc.id = store.map Doc.id := by
      rw [map_id_upsertOne, if_pos hany]
    have hbatch : upsertBatch store (d :: ds) = upsertBatch (upsertOne store d) ds := rfl
    rw [hbatch, ih (upsertOne store d) (fun e he => by
      rw [hone]
      exact hall e (List.mem_cons_of_mem _ he)), hone]

theorem nodup_ids_upsertBatch :
    ∀ (docs : List Doc) (store : Store),
      (store.map Doc.id).Nodup → ((upsertBatch store docs).map Doc.id).Nodup := by
  intro docs
  induction docs with
  | nil => exact fun store h => h
  | cons d ds ih =>
    intro store h
    have hone : ((upsertOne store d).map Doc.id).Nodup := by
      rw [map_id_upsertOne]
      by_cases hany : (store.any fun e => e.id = d.id) = true
      · rwa [if_pos hany]
      · rw [if_neg hany]
        have hnotin : d.id ∉ store.map Doc.id := fun hmem =>
          hany ((any_id_eq_true_iff store d).mpr hmem)
        exact List.Nodup.append h (List.nodup_singleton _)
          (List.disjoint_singleton.mpr hnotin)
    exact ih (upsertOne store d) hone

/-- C7. Idempotence of the write path: two `index_session` calls with the same
arguments (including the modelled `utcnow` timestamp) build the same document
batch — ids `conversation_id:turn:turn_index:opinion:idx:model` and
`conversation_id:turn:turn_index:synthesis:model` — so under upsert-by-id
semantics the second call changes nothing: the store maps every id to the same
content, holds exactly the same identifier list, and contains no duplicate
ids. -/
theorem index_session_idempotent (store : Store) (enabled : Bool)
    (conversation_id : String) (turn_index : Int) (user_question : String)
    (stage1_results : List Stage1Result) (stage2_results : List String)
    (stage3_result : Stage3Result) (topics : List String)
    (quality_metrics : List (String × QualityMetric)) (timestamp : String)
    (hwf : (store.map Doc.id).Nodup) :
    (∀ i, storeLookup (CouncilRAG.index_session
        (CouncilRAG.index_session store enabled conversation_id turn_index user_question
          stage1_results stage2_results stage3_result topics quality_metrics timestamp)
        enabled conversation_id turn_index user_question stage1_results stage2_results
        stage3_result topics quality_metrics timestamp) i =
      storeLookup (CouncilRAG.index_session store enabled conversation_id turn_index
        user_question stage1_results stage2_results stage3_result topics quality_metrics
        timestamp) i) ∧
    (CouncilRAG.index_session
        (CouncilRAG.index_session store enabled conversation_id turn_index user_question
          stage1_results stage2_results stage3_result topics quality_metrics timestamp)
        enabled conversation_id turn_index user_question stage1_results stage2_results
        stage3_result topics quality_metrics timestamp).map Doc.id =
      (CouncilRAG.index_session store enabled conversation_id turn_index user_question
        stage1_results stage2_results stage3_result topics quality_metrics
        timestamp).map Doc.id ∧
    ((CouncilRAG.index_session store enabled conversation_id turn_index user_question
      stage1_results stage2_results stage3_result topics quality_metrics
      timestamp).map Doc.id).Nodup := by
  cases enabled with
  | false => exact ⟨fun i => rfl, rfl, hwf⟩
  | true =>
    have heq : ∀ s : Store, CouncilRAG.index_session s true conversation_id turn_index
        user_question stage1_results stage2_results stage3_result topics quality_metrics
        timestamp =
      (if (CouncilRAG.sessionDocs conversation_id turn_index user_question stage1_results
          stage3_result topics quality_metrics timestamp).isEmpty then s
       else upsertBatch s (CouncilRAG.sessionDocs conversation_id turn_index user_question
         stage1_results stage3_result topics quality_metrics timestamp)) :=
      fun s => rfl
    by_cases hdocs : (CouncilRAG.sessionDocs conversation_id turn_index user_question
        stage1_results stage3_result topics quality_metrics timestamp).isEmpty
    · rw [heq, if_pos hdocs, heq, if_pos hdocs]
      exact ⟨fun i => rfl, rfl, hwf⟩
    · rw [heq, if_neg hdocs, heq, if_neg hdocs]
      set docs := CouncilRAG.sessionDocs conversation_id turn_index user_question
        stage1_results stage3_result topics quality_metrics timestamp with hdocs_def
      refine ⟨?_, ?_, nodup_ids_upsertBatch docs store hwf⟩
      · intro i
        rw [storeLookup_upsertBatch, storeLookup_upsertBatch]
        cases hf : findDoc i docs.reverse with
        | some x => rfl
        | none => rfl
      · exact ids_upsertBatch_stable docs (upsertBatch store docs)
          (ids_upsertBatch_superset docs store).2

/-- C7 witness: a concrete double indexing of one opinion and one synthesis
leaves lookups and the identifier list unchanged. -/
theorem index_session_idempotent_witness :
    storeLookup (CouncilRAG.index_session
        (CouncilRAG.index_session [] true "c1" 0 "q" [{ model := "m1", response := "a1" }]
          [] { model := some "chair", response := some "final" } [] [] "t0")
        true "c1" 0 "q" [{ model := "m1", response := "a1" }] []
        { model := some "chair", response := some "final" } [] [] "t0")
      "c1:turn:0:opinion:0:m1" =
      storeLookup (CouncilRAG.index_session [] true "c1" 0 "q"
        [{ model := "m1", response := "a1" }] []
        { model := some "chair", response := some "final" } [] [] "t0")
        "c1:turn:0:opinion:0:m1" ∧
    (CouncilRAG.index_session
        (CouncilRAG.index_session [] true "c1" 0 "q" [{ model := "m1", response := "a1" }]
          [] { model := some "chair", response := some "final" } [] [] "t0")
        true "c1" 0 "q" [{ model := "m1", response := "a1" }] []
        { model := some "chair", response := some "final" } [] [] "t0").map Doc.id =
      (CouncilRAG.index_session [] true "c1" 0 "q" [{ model := "m1", response := "a1" }]
        [] { model := some "chair", response := some "final" } [] [] "t0").map Doc.id :=
  ⟨(index_session_idempotent [] true "c1" 0 "q" [{ model := "m1", response := "a1" }] []
      { model := some "chair", response := some "final" } [] [] "t0" (by decide)).1
      "c1:turn:0:opinion:0:m1",
   (index_session_idempotent [] true "c1" 0 "q" [{ model := "m1", response := "a1" }] []
      { model := some "chair", response := some "final" } [] [] "t0" (by decide)).2.1⟩

/-- C8 counterexample: two fused candidates with exactly equal fused scores
(one lexical-only at rank 1, one dense-only at rank 1, default weights), and
two valid enumerations of the candidate id set under which
`HybridRetriever.retrieve` returns the results in different orders — the tie
is broken by the set enumeration order, not by the identifier string. -/
theorem deterministic_tiebreak_counterexample :
    ValidEnum (bm25Results (rebuildSnapshot [docFull1, docFull2])
        [mkRat 1 1, mkRat 0 1] "c1" 10)
      (denseResults [docFull1, docFull2] [("c1:turn:0:synthesis:chair", mkRat 1 5)]
        "c1" 10)
      ["c1:turn:0:opinion:0:m1", "c1:turn:0:synthesis:chair"] ∧
    ValidEnum (bm25Results (rebuildSnapshot [docFull1, docFull2])
        [mkRat 1 1, mkRat 0 1] "c1" 10)
      (denseResults [docFull1, docFull2] [("c1:turn:0:synthesis:chair", mkRat 1 5)]
        "c1" 10)
      ["c1:turn:0:synthesis:chair", "c1:turn:0:opinion:0:m1"] ∧
    fusedScore (bm25Results (rebuildSnapshot [docFull1, docFull2])
        [mkRat 1 1, mkRat 0 1] "c1" 10)
      (denseResults [docFull1, docFull2] [("c1:turn:0:synthesis:chair", mkRat 1 5)]
        "c1" 10) (mkRat 1 2) (mkRat 1 2) "c1:turn:0:opinion:0:m1" =
    fusedScore (bm25Results (rebuildSnapshot [docFull1, docFull2])
        [mkRat 1 1, mkRat 0 1] "c1" 10)
      (denseResults [docFull1, docFull2] [("c1:turn:0:synthesis:chair", mkRat 1 5)]
        "c1" 10) (mkRat 1 2) (mkRat 1 2) "c1:turn:0:synthesis:chair" ∧
    HybridRetriever.retrieve [docFull1, docFull2] [mkRat 1 1, mkRat 0 1]
        [("c1:turn:0:synthesis:chair", mkRat 1 5)]
        ["c1:turn:0:opinion:0:m1", "c1:turn:0:synthesis:chair"] "c1" 10
        (mkRat 1 2) (mkRat 1 2) ≠
      HybridRetriever.retrieve [docFull1, docFull2] [mkRat 1 1, mkRat 0 1]
        [("c1:turn:0:synthesis:chair", mkRat 1 5)]
        ["c1:turn:0:synthesis:chair", "c1:turn:0:opinion:0:m1"] "c1" 10
        (mkRat 1 2) (mkRat 1 2) := by
  refine ⟨by decide, by decide, by decide, by decide⟩

/-- C8 amended: the fused sort is stable, so the output order is a
deterministic function of the candidate enumeration order; whenever the fused
scores are pairwise distinct on the candidate set the output is moreover
independent of that enumeration — only equal-score ties can differ between
two valid enumerations (i.e. between two runs whose set iteration order
differs). -/
theorem fused_order_deterministic_of_distinct (store : Store) (bm25Scores : List ℚ)
    (denseOracle : List (String × ℚ)) (enumOrder1 enumOrder2 : List String)
    (conversation_id : String) (top_k : ℕ) (bm25_weight dense_weight : ℚ)
    (h1 : ValidEnum (bm25Results (rebuildSnapshot store) bm25Scores conversation_id top_k)
      (denseResults store denseOracle conversation_id top_k) enumOrder1)
    (h2 : ValidEnum (bm25Results (rebuildSnapshot store) bm25Scores conversation_id top_k)
      (denseResults store denseOracle conversation_id top_k) enumOrder2)
    (hinj : ∀ a ∈ enumOrder1, ∀ b ∈ enumOrder1,
      fusedScore (bm25Results (rebuildSnapshot store) bm25Scores conversation_id top_k)
        (denseResults store denseOracle conversation_id top_k) bm25_weight dense_weight a =
      fusedScore (bm25Results (rebuildSnapshot store) bm25Scores conversation_id top_k)
        (denseResults store denseOracle conversation_id top_k) bm25_weight dense_weight b →
      a = b) :
    HybridRetriever.retrieve store bm25Scores denseOracle enumOrder1 conversation_id
        top_k bm25_weight dense_weight =
      HybridRetriever.retrieve store bm25Scores denseOracle enumOrder2 conversation_id
        top_k bm25_weight dense_weight := by
  have hmem : ∀ a, a ∈ enumOrder1 ↔ a ∈ enumOrder2 := by
    intro a
    constructor
    · intro ha
      rcases h1.2.1 a ha with hbm | hdn
      · exact h2.2.2.1 a hbm
      · exact h2.2.2.2 a hdn
    · intro ha
      rcases h2.2.1 a ha with hbm | hdn
      · exact h1.2.2.1 a hbm
      · exact h1.2.2.2 a hdn
  have hperm : enumOrder1.Perm enumOrder2 :=
    (List.perm_ext_iff_of_nodup h1.1 h2.1).mpr hmem
  cases store with
  | nil => rw [retrieve_nil, retrieve_nil]
  | cons d ds =>
    rw [retrieve_eq_cons, retrieve_eq_cons]
    set score := fusedScore
      (bm25Results (rebuildSnapshot (d :: ds)) bm25Scores conversation_id top_k)
      (denseResults (d :: ds) denseOracle conversation_id top_k)
      bm25_weight dense_weight with hscore_def
    by_cases he1 : enumOrder1.isEmpty
    · have he2 : enumOrder2.isEmpty := by
        cases enumOrder2 with
        | nil => rfl
        | cons x xs =>
          exfalso
          have : x ∈ enumOrder1 := (hmem x).mpr (List.mem_cons_self _ _)
          cases enumOrder1 with
          | nil => exact List.not_mem_nil x this
          | cons y ys => exact absurd he1 (by simp)
      rw [if_pos he1, if_pos he2]
    · have he2 : ¬enumOrder2.isEmpty := by
        intro habs
        apply he1
        cases enumOrder1 with
        | nil => rfl
        | cons y ys =>
          exfalso
          have : y ∈ enumOrder2 := (hmem y).mp (List.mem_cons_self _ _)
          cases enumOrder2 with
          | nil => exact List.not_mem_nil y this
          | cons x xs => exact absurd habs (by simp)
      rw [if_neg he1, if_neg he2]
      haveI : IsTotal String (fun a b => score b ≤ score a) := ⟨fun a b => le_total _ _⟩
      haveI : IsTrans String (fun a b => score b ≤ score a) :=
        ⟨fun a b c hab hbc => le_trans hbc hab⟩
      have hs1 : List.Sorted (fun a b => score b ≤ score a)
          (enumOrder1.insertionSort fun a b => score b ≤ score a) :=
        List.sorted_insertionSort _ _
      have hs2 : List.Sorted (fun a b => score b ≤ score a)
          (enumOrder2.insertionSort fun a b => score b ≤ score a) :=
        List.sorted_insertionSort _ _
      have hp : (enumOrder1.insertionSort fun a b => score b ≤ score a).Perm
          (enumOrder2.insertionSort fun a b => score b ≤ score a) :=
        ((List.perm_insertionSort _ _).trans hperm).trans
          (List.perm_insertionSort _ _).symm
      haveI : IsAntisymm String
          (fun a b => score b ≤ score a ∧ (score a = score b → a = b)) :=
        ⟨fun a b ha hb => ha.2 (le_antisymm hb.1 ha.1)⟩
      have hs1' : List.Sorted (fun a b => score b ≤ score a ∧ (score a = score b → a = b))
          (enumOrder1.insertionSort fun a b => score b ≤ score a) := by
        refine List.Pairwise.imp_of_mem ?_ hs1
        intro a b ha hb hr
        refine ⟨hr, fun hsc => ?_⟩
        have ha1 : a ∈ enumOrder1 := (List.perm_insertionSort _ _).mem_iff.mp ha
        have hb1 : b ∈ enumOrder1 := (List.perm_insertionSort _ _).mem_iff.mp hb
        exact hinj a ha1 b hb1 hsc
      have hs2' : List.Sorted (fun a b => score b ≤ score a ∧ (score a = score b → a = b))
          (enumOrder2.insertionSort fun a b => score b ≤ score a) := by
        refine List.Pairwise.imp_of_mem ?_ hs2
        intro a b ha hb hr
        refine ⟨hr, fun hsc => ?_⟩
        have ha1 : a ∈ enumOrder1 :=
          (hmem a).mpr ((List.perm_insertionSort _ _).mem_iff.mp ha)
        have hb1 : b ∈ enumOrder1 :=
          (hmem b).mpr ((List.perm_insertionSort _ _).mem_iff.mp hb)
        exact hinj a ha1 b hb1 hsc
      rw [List.eq_of_perm_of_sorted hp hs1' hs2']

/-- C8 amended witness: with pairwise-distinct fused scores, two opposite
candidate enumerations yield identical outputs on a concrete store. -/
theorem fused_order_deterministic_witness :
    HybridRetriever.retrieve [docFull1, docFull2] [mkRat 1 1, mkRat 0 1]
        [("c1:turn:0:opinion:0:m1", mkRat 1 5), ("c1:turn:0:synthesis:chair", mkRat 1 10)]
        ["c1:turn:0:opinion:0:m1", "c1:turn:0:synthesis:chair"] "c1" 10
        (mkRat 1 2) (mkRat 1 2) =
      HybridRetriever.retrieve [docFull1, docFull2] [mkRat 1 1, mkRat 0 1]
        [("c1:turn:0:opinion:0:m1", mkRat 1 5), ("c1:turn:0:synthesis:chair", mkRat 1 10)]
        ["c1:turn:0:synthesis:chair", "c1:turn:0:opinion:0:m1"] "c1" 10
        (mkRat 1 2) (mkRat 1 2) :=
  fused_order_deterministic_of_distinct [docFull1, docFull2] [mkRat 1 1, mkRat 0 1]
    [("c1:turn:0:opinion:0:m1", mkRat 1 5), ("c1:turn:0:synthesis:chair", mkRat 1 10)]
    ["c1:turn:0:opinion:0:m1", "c1:turn:0:synthesis:chair"]
    ["c1:turn:0:synthesis:chair", "c1:turn:0:opinion:0:m1"] "c1" 10
    (mkRat 1 2) (mkRat 1 2) (by decide) (by decide) (by decide)

/-- C9 counterexample: a stored conversation-c1 document whose metadata merely
lacks `turn_index` survives retrieval and the threshold, but `_format_chunk`
raises (`meta['turn_index']`), so the whole `CouncilRAG.retrieve` call returns
the empty string — the chunk is not formatted with default sentinels and the
call's entire output is lost, contrary to the claim. -/
theorem malformed_metadata_counterexample :
    CouncilRAG.thresholdFilter (HybridRetriever.retrieve [docNoTurn] [mkRat 1 1]
        [("c1:turn:1:opinion:0:m9", mkRat 1 5)] ["c1:turn:1:opinion:0:m9"] "c1" 10
        (mkRat 1 2) (mkRat 1 2)) =
      [{ id := "c1:turn:1:opinion:0:m9", similarity := mkRat 1 61,
         metadata := docNoTurn.meta, text := "hello world" }] ∧
    CouncilRAG.formatChunk
      { id := "c1:turn:1:opinion:0:m9", similarity := mkRat 1 61,
        metadata := docNoTurn.meta, text := "hello world" } =
      Except.error "KeyError" ∧
    CouncilRAG.retrieve true none [docNoTurn] [mkRat 1 1]
      [("c1:turn:1:opinion:0:m9", mkRat 1 5)] ["c1:turn:1:opinion:0:m9"] "c1" = "" :=
  ⟨by decide, rfl, by decide⟩

theorem mem_opinionDocs {conversation_id : String} {turn_index : Int}
    {user_question topicsStr timestamp : String}
    {quality_metrics : List (String × QualityMetric)} :
    ∀ {stage1_results : List Stage1Result} {idx : ℕ} {d : Doc},
      d ∈ CouncilRAG.opinionDocs conversation_id turn_index user_question topicsStr
          timestamp quality_metrics stage1_results idx →
      ∃ m : String, d.meta.model = some m ∧
        d.meta.avg_rank =
          some ((((dictGet m quality_metrics).getD {}).avg_rank).getD 999) ∧
        d.meta.consensus_score =
          some ((((dictGet m quality_metrics).getD {}).consensus_score).getD 0) := by
  intro stage1_results
  induction stage1_results with
  | nil =>
    intro idx d h
    exact absurd h (by simp [CouncilRAG.opinionDocs])
  | cons res rest ih =>
    intro idx d h
    rw [CouncilRAG.opinionDocs] at h
    rcases List.mem_cons.mp h with heq | htail
    · exact ⟨res.model, by rw [heq], by rw [heq], by rw [heq]⟩
    · exact ih htail

/-- C9 amended: default sentinels exist only on the write path —
`index_session` resolves missing quality metrics to `avg_rank = 999.0` and
`consensus_score = 0.0` — while on the read path a chunk whose stored
metadata lacks `turn_index`, `stage` or `model` makes `_format_chunk` raise;
the `retrieve` boundary catches this and returns the empty string, so the
call never fails hard but the chunk is not formatted and the output is lost. -/
theorem malformed_metadata_amended :
    (∀ (conversation_id : String) (turn_index : Int) (user_question : String)
        (stage1_results : List Stage1Result) (stage3_result : Stage3Result)
        (topics : List String) (quality_metrics : List (String × QualityMetric))
        (timestamp : String),
      ∀ d ∈ CouncilRAG.sessionDocs conversation_id turn_index user_question
          stage1_results stage3_result topics quality_metrics timestamp,
        ∃ m : String, d.meta.model = some m ∧
          (((dictGet m quality_metrics).getD {}).avg_rank = none →
            d.meta.avg_rank = some 999) ∧
          (((dictGet m quality_metrics).getD {}).consensus_score = none →
            d.meta.consensus_score = some 0)) ∧
    (∀ c : Chunk,
      c.metadata.turn_index = none ∨ c.metadata.stage = none ∨ c.metadata.model = none →
      CouncilRAG.formatChunk c = Except.error "KeyError") ∧
    ∀ (fail : Option String) (store : Store) (bm25Scores : List ℚ)
        (denseOracle : List (String × ℚ)) (enumOrder : List String)
        (conversation_id : String) (e : String),
      CouncilRAG.retrieveE fail store bm25Scores denseOracle enumOrder
          conversation_id = Except.error e →
      CouncilRAG.retrieve true fail store bm25Scores denseOracle enumOrder
        conversation_id = "" := by
  refine ⟨?_, ?_, ?_⟩
  · intro conversation_id turn_index user_question stage1_results stage3_result topics
      quality_metrics timestamp d hd
    have hsplit := List.mem_append.mp hd
    rcases hsplit with hop | hsyn
    · obtain ⟨m, hm, ha, hc⟩ := mem_opinionDocs hop
      exact ⟨m, hm, fun hnone => by rw [ha, hnone]; rfl, fun hnone => by rw [hc, hnone]; rfl⟩
    · by_cases hft : (stage3_result.response.getD "") = ""
      · rw [if_pos hft] at hsyn
        exact absurd hsyn (List.not_mem_nil d)
      · rw [if_neg hft] at hsyn
        rcases List.mem_cons.mp hsyn with heq | habs
        · refine ⟨stage3_result.model.getD "unknown", by rw [heq], ?_, ?_⟩
          · intro hnone
            rw [heq]
            show some ((((dictGet (stage3_result.model.getD "unknown")
              quality_metrics).getD {}).avg_rank).getD 999) = some 999
            rw [hnone]
            rfl
          · intro hnone
            rw [heq]
            show some ((((dictGet (stage3_result.model.getD "unknown")
              quality_metrics).getD {}).consensus_score).getD 0) = some 0
            rw [hnone]
            rfl
        · exact absurd habs (List.not_mem_nil d)
  · intro c h
    rcases ht : c.metadata.turn_index with _ | t <;>
      rcases hs : c.metadata.stage with _ | s <;>
      rcases hm : c.metadata.model with _ | m <;>
      simp [CouncilRAG.formatChunk, ht, hs, hm] at h ⊢
  · intro fail store bm25Scores denseOracle enumOrder conversation_id e herr
    rw [CouncilRAG.retrieve, if_neg (by simp), herr]

/-- C9 amended witness: a model absent from the quality metrics is indexed
with the default sentinels, and formatting a chunk without `turn_index`
raises at the boundary. -/
theorem malformed_metadata_amended_witness :
    (({ id := "c1:turn:0:opinion:0:m1", text := "Q: q\n\nA: a1",
        meta := { conversation_id := some "c1", turn_index := some 0,
                  stage := some "opinion", model := some "m1", topics := some "[]",
                  avg_rank := some 999, consensus_score := some 0,
                  timestamp := some "t0" } } : Doc) ∈
      CouncilRAG.sessionDocs "c1" 0 "q" [{ model := "m1", response := "a1" }]
        { model := some "chair", response := some "final" } [] [] "t0") ∧
    CouncilRAG.formatChunk
      { id := "c1:turn:1:opinion:0:m9", similarity := mkRat 1 61,
        metadata := docNoTurn.meta, text := "hello world" } =
      Except.error "KeyError" :=
  ⟨by decide,
   malformed_metadata_amended.2.1
     { id := "c1:turn:1:opinion:0:m9", similarity := mkRat 1 61,
       metadata := docNoTurn.meta, text := "hello world" } (Or.inl rfl)⟩
